import Mathlib

/-!
Shallow embedding of the ssmconfig Go library (struct mapper, scalar
converter, validator registry, fetch cache, refreshing handle), with
theorems settling the specification claims.

Go `map[string]string` values are modelled as association lists with
distinct keys (`StrMap`); Go machine integers are modelled as `Int`/`Nat`
with explicit wrapping modulo `2 ^ width` where the Go runtime truncates.
External collaborators (the SSM client, `encoding/json`, the process
environment) are passed in as function parameters, exactly at the
interface boundary the code uses them.
-/

set_option maxHeartbeats 1600000

namespace Ssmconfig

/-! ### Strings: character-level helpers used by the embedding -/

/-- One key/value map, as Go's `map[string]string`: an association list
whose keys are pairwise distinct. -/
abbrev StrMap := List (String × String)

/-- Decimal digit test, as `strconv`'s per-character check for base 10. -/
def isDigitChar (c : Char) : Bool := 48 ≤ c.toNat && c.toNat ≤ 57

/-- Numeric value of a decimal digit character. -/
def digitVal (c : Char) : Nat := c.toNat - 48

/-- Accumulate a digit list into the number it denotes (base 10). -/
def digitsToNat (cs : List Char) : Nat :=
  cs.foldl (fun acc c => acc * 10 + digitVal c) 0

/-- The character-level body of `parseUint64`. -/
def parseUintChars (cs : List Char) : Option Nat :=
  if cs.isEmpty then none
  else if cs.all isDigitChar then
    let n := digitsToNat cs
    if n < 2 ^ 64 then some n else none
  else none

/-- Model of Go `strconv.ParseUint(s, 10, 64)`: no sign is accepted, the
digits must be non-empty and the value must fit in 64 bits; `none` is any
parse error (syntax or range). -/
def parseUint64 (s : String) : Option Nat := parseUintChars s.toList

/-- The character-level body of `parseInt64`. -/
def parseIntChars : List Char → Option Int
  | [] => none
  | c :: rest =>
    let digits := if c = '-' ∨ c = '+' then rest else c :: rest
    if digits.isEmpty then none
    else if digits.all isDigitChar then
      let n := digitsToNat digits
      if c = '-' then
        if n ≤ 2 ^ 63 then some (-(n : Int)) else none
      else
        if n < 2 ^ 63 then some (n : Int) else none
    else none

/-- Model of Go `strconv.ParseInt(s, 10, 64)`: an optional leading sign,
then decimal digits; the value must fit in a signed 64-bit integer. -/
def parseInt64 (s : String) : Option Int := parseIntChars s.toList

/-- Model of Go `strconv.ParseBool`. -/
def parseBool (s : String) : Option Bool :=
  if s = "1" ∨ s = "t" ∨ s = "T" ∨ s = "TRUE" ∨ s = "true" ∨ s = "True" then some true
  else if s = "0" ∨ s = "f" ∨ s = "F" ∨ s = "FALSE" ∨ s = "false" ∨ s = "False" then
    some false
  else none

/-- Go `strings.Split(s, sep)` for a one-character separator, on the
character list: splitting the empty string yields one empty piece. -/
def splitChar (sep : Char) : List Char → List (List Char)
  | [] => [[]]
  | c :: rest =>
    if c = sep then [] :: splitChar sep rest
    else
      match splitChar sep rest with
      | [] => [[c]]
      | h :: t => (c :: h) :: t

/-- `strings.Split` on strings (one-character separator). -/
def goSplit (s : String) (sep : Char) : List String :=
  (splitChar sep s.toList).map String.mk

/-- `strings.Join(parts, sep)`. -/
def joinSep (sep : String) : List String → String
  | [] => ""
  | [x] => x
  | x :: rest => x ++ sep ++ joinSep sep rest

/-- ASCII whitespace, the space class relevant to this library's inputs. -/
def isSpaceChar (c : Char) : Bool := c = ' ' || c = '\t' || c = '\n' || c = '\r'

/-- Go `strings.TrimSpace` on the character list. -/
def trimSpace (cs : List Char) : List Char :=
  ((cs.dropWhile isSpaceChar).reverse.dropWhile isSpaceChar).reverse

/-- `strings.TrimSpace` on strings. -/
def goTrimSpace (s : String) : String := String.mk (trimSpace s.toList)

/-- ASCII lower-casing of one character. -/
def toLowerChar (c : Char) : Char :=
  if 65 ≤ c.toNat && c.toNat ≤ 90 then Char.ofNat (c.toNat + 32) else c

/-- Go `strings.ToLower` (ASCII). -/
def lowerStr (s : String) : String := String.mk (s.toList.map toLowerChar)

/-! ### Association-list operations modelling Go map primitives -/

/-- Go map assignment `m[k] = v`: replace the binding if the key is
present, otherwise append a new binding. -/
def goInsert (m : StrMap) (k v : String) : StrMap :=
  if m.any (fun kv => kv.1 = k) then
    m.map (fun kv => if kv.1 = k then (k, v) else kv)
  else m ++ [(k, v)]

/-- Go map read `m[k]` (the `v, ok := m[k]` form). -/
def lookupKey (m : StrMap) (k : String) : Option String :=
  (m.find? (fun kv => kv.1 = k)).map (fun kv => kv.2)

/-- Go `_, ok := m[k]` membership test. -/
def hasKey (m : StrMap) (k : String) : Bool := (lookupKey m k).isSome

/-- Go `strings.HasPrefix(s, pfx)`. -/
def hasPre (s pfx : String) : Bool := pfx.toList.isPrefixOf s.toList

/-- `filterValuesByPrefix` from `mapper.go`: keep the entries whose key
starts with `pre ++ "/"` (stripping that lead), map an exact-match key to
the empty key, and return everything unchanged for the empty `pre`. -/
def filterValuesByPrefix (values : StrMap) (pre : String) : StrMap :=
  if pre = "" then values
  else
    let pws := pre ++ "/"
    values.foldl
      (fun result kv =>
        if hasPre kv.1 pws then
          goInsert result (String.mk (kv.1.toList.drop pws.toList.length)) kv.2
        else if kv.1 = pre then goInsert result "" kv.2
        else result)
      []

/-! ### Scalar converter (`setFieldValue` in `mapper.go`) -/

/-- Fixed integer widths of the Go kinds handled by the converter
(`reflect.Int`/`reflect.Uint` are 64-bit on the platforms this library
targets). -/
inductive IntW where
  | w8
  | w16
  | w32
  | w64
  deriving DecidableEq, Repr

/-- Bit width. -/
def IntW.bits : IntW → Nat
  | .w8 => 8
  | .w16 => 16
  | .w32 => 32
  | .w64 => 64

/-- The field kinds the strongly-typed converter handles in this
embedding (Go's float kinds are outside the embedding, see the file
header). -/
inductive FieldKind where
  | str
  | sint (w : IntW)
  | uint (w : IntW)
  | boolKind
  | strSlice
  deriving DecidableEq, Repr

/-- Runtime values stored in struct fields. -/
inductive GoValue where
  | vstr (s : String)
  | vint (w : IntW) (n : Int)
  | vuint (w : IntW) (n : Nat)
  | vbool (b : Bool)
  | vslice (xs : List String)
  | vstruct (fields : List GoValue)
  | vptr (v : Option GoValue)
  deriving Repr

/-- Two's-complement wrap of an integer into a signed width, the
behaviour of `reflect.Value.SetInt` on a narrower field. -/
def wrapSigned (w : IntW) (n : Int) : Int :=
  (n + 2 ^ (w.bits - 1)) % (2 ^ w.bits : Int) - 2 ^ (w.bits - 1)

/-- `setFieldValue` from `mapper.go`: strongly-typed conversion of one
raw string into a field of the given kind.  Signed kinds bounds-check the
declared width after a 64-bit parse; unsigned kinds do not (the
`reflect` setter wraps modulo the width); a string slice splits on commas
and trims each element. -/
def setFieldValue (kind : FieldKind) (val : String) : Except String GoValue :=
  match kind with
  | .str => .ok (.vstr val)
  | .sint w =>
    match parseInt64 val with
    | none => .error "invalid int value"
    | some intVal =>
      match w with
      | .w8 =>
        if intVal > 127 ∨ intVal < -128 then
          .error ("value " ++ toString intVal ++ " out of range for int8")
        else .ok (.vint .w8 (wrapSigned .w8 intVal))
      | .w16 =>
        if intVal > 32767 ∨ intVal < -32768 then
          .error ("value " ++ toString intVal ++ " out of range for int16")
        else .ok (.vint .w16 (wrapSigned .w16 intVal))
      | .w32 =>
        if intVal > 2147483647 ∨ intVal < -2147483648 then
          .error ("value " ++ toString intVal ++ " out of range for int32")
        else .ok (.vint .w32 (wrapSigned .w32 intVal))
      | .w64 => .ok (.vint .w64 (wrapSigned .w64 intVal))
  | .uint w =>
    match parseUint64 val with
    | none => .error "invalid uint value"
    | some uintVal => .ok (.vuint w (uintVal % 2 ^ w.bits))
  | .boolKind =>
    match parseBool val with
    | none => .error "invalid bool value"
    | some b => .ok (.vbool b)
  | .strSlice => .ok (.vslice ((goSplit val ',').map (fun part => goTrimSpace part)))

/-! ### Field tags and struct shapes -/

/-- The struct tags the mapper reads from a field
(`ssm`, `env`, `required`, `json`, `validate`). -/
structure FieldTags where
  ssm : String
  env : String
  required : String
  json : String
  validate : String
  deriving DecidableEq, Repr

/-- The shape of a field: a leaf scalar, a nested struct (by value), or a
pointer to a nested struct.  A struct shape is the list of its fields,
each a Go name with its tags and its own shape. -/
inductive FieldType where
  | leaf (k : FieldKind)
  | strct (fields : List (String × FieldTags × FieldType))
  | ptrStrct (fields : List (String × FieldTags × FieldType))
  deriving Repr

/-- A struct field: its Go name, its tags and its shape. -/
abbrev GoField := String × FieldTags × FieldType

/-- `isRequiredField` from `mapper.go`; the `json` tag uses the same
truthy set inline. -/
def truthyTag (t : String) : Bool := t == "true" || t == "1" || t == "yes"

/-- `isRequiredField` from `mapper.go`. -/
def isRequiredField (requiredTag : String) : Bool := truthyTag requiredTag

/-! ### Validator registry (`validators.go`) -/

/-- The two registries of `validators.go`: plain validators
(`value -> error`) and parameterized ones (`value, params -> error`), as
association lists from name to function.  A returned `some msg` models a
non-nil Go error. -/
structure Registry where
  plainVs : List (String × (GoValue → Option String))
  paramVs : List (String × (GoValue → String → Option String))

/-- `GetValidator`. -/
def getValidator (reg : Registry) (name : String) : Option (GoValue → Option String) :=
  (reg.plainVs.find? (fun kv => kv.1 = name)).map (fun kv => kv.2)

/-- `GetParameterizedValidator`. -/
def getParameterizedValidator (reg : Registry) (name : String) :
    Option (GoValue → String → Option String) :=
  (reg.paramVs.find? (fun kv => kv.1 = name)).map (fun kv => kv.2)

/-- Go `strings.SplitN(s, sep, 2)` for a one-character separator: split
at the first occurrence only. -/
def splitN2 (s : String) (sep : Char) : List String :=
  match goSplit s sep with
  | [] => [s]
  | [x] => [x]
  | x :: rest => [x, joinSep (String.mk [sep]) rest]

/-- The per-spec loop of `validateField`: trim each comma-separated spec,
skip empty ones, split `name:params` at the first colon, try the
parameterized registry when a non-empty parameter is present, fall back
to the plain registry, and fail \x22not found\x22 when neither matches;
the first validator failure aborts. -/
def runValidatorSpecs (reg : Registry) (value : GoValue) (specs : List String)
    (fieldName : String) : Option String :=
  match specs with
  | [] => none
  | spec0 :: rest =>
    let spec := goTrimSpace spec0
    if spec = "" then runValidatorSpecs reg value rest fieldName
    else
      let parts := splitN2 spec ':'
      let validatorKey := parts.headD ""
      let params := if parts.length > 1 then parts.getD 1 "" else ""
      match (if params ≠ "" then getParameterizedValidator reg validatorKey else none) with
      | some paramValidator =>
        match paramValidator value params with
        | some e =>
          some ("validation failed for field \x27" ++ fieldName ++ "\x27 using validator \x27"
            ++ spec ++ "\x27: " ++ e)
        | none => runValidatorSpecs reg value rest fieldName
      | none =>
        match getValidator reg validatorKey with
        | some validator =>
          match validator value with
          | some e =>
            some ("validation failed for field \x27" ++ fieldName ++ "\x27 using validator \x27"
              ++ spec ++ "\x27: " ++ e)
          | none => runValidatorSpecs reg value rest fieldName
        | none =>
          some ("validator \x27" ++ spec ++ "\x27 not found for field \x27" ++ fieldName ++ "\x27")

/-- `validateField` from `validators.go`: empty tag validates trivially, a
nil pointer cannot be validated, a non-nil pointer is dereferenced, then
the comma-separated specs run in declaration order. -/
def validateField (reg : Registry) (fv : GoValue) (validatorName fieldName : String) :
    Option String :=
  if validatorName = "" then none
  else
    match fv with
    | .vptr none => some ("field \x27" ++ fieldName ++ "\x27 is nil, cannot validate")
    | .vptr (some v) => runValidatorSpecs reg v (goSplit validatorName ',') fieldName
    | v => runValidatorSpecs reg v (goSplit validatorName ',') fieldName

/-! ### The struct mapper (`mapToStruct` in `mapper.go`) -/

/-- Everything `mapToStruct` consults besides the value map and the
destination: the process environment, the JSON decoder (the
`encoding/json` collaborator), the validator registry (after
`ensureBuiltinValidators`), and the loader flags.  The logger is modelled
by `hasLogger` plus an accumulated message list. -/
structure MapperCtx where
  envf : String → String
  jsonDec : FieldType → String → Except String GoValue
  reg : Registry
  strict : Bool
  hasLogger : Bool
  useStrongTyping : Bool

/-- A logger call: append the formatted message when a logger is set. -/
def addLog (hasLogger : Bool) (log : List String) (msg : String) : List String :=
  if hasLogger then log ++ [msg] else log

/-- The missing-required description for a leaf or JSON field. -/
def missingFieldInfo (n ssm env : String) : String :=
  "field \x27" ++ n ++ "\x27 (ssm:\x27" ++ ssm ++ "\x27, env:\x27" ++ env ++ "\x27)"

/-- The missing-required description for a plain nested struct field. -/
def missingNestedInfo (n ssm env : String) : String :=
  "nested struct field \x27" ++ n ++ "\x27 (ssm:\x27" ++ ssm ++ "\x27, env:\x27" ++ env ++ "\x27)"

/-- The duplicated value-resolution block of `mapToStruct`: the
environment variable wins when set and non-empty, else the merged map's
value for the `ssm` tag when present and non-empty. -/
def resolveRaw (envf : String → String) (values : StrMap) (envTag ssmTag : String) :
    Option String :=
  if envTag ≠ "" ∧ envf envTag ≠ "" then some (envf envTag)
  else if ssmTag ≠ "" then
    match lookupKey values ssmTag with
    | some sv => if sv ≠ "" then some sv else none
    | none => none
  else none

/-- Go zero value of a leaf kind. -/
def zeroOfKind : FieldKind → GoValue
  | .str => .vstr ""
  | .sint w => .vint w 0
  | .uint w => .vuint w 0
  | .boolKind => .vbool false
  | .strSlice => .vslice []

mutual

/-- Go zero value of a field shape. -/
def zeroOfType : FieldType → GoValue
  | .leaf k => zeroOfKind k
  | .strct fs => .vstruct (zeroFields fs)
  | .ptrStrct _ => .vptr none
termination_by t => sizeOf t

/-- Zero values of a field list. -/
def zeroFields : List GoField → List GoValue
  | [] => []
  | f :: rest => zeroOfType f.2.2 :: zeroFields rest
termination_by l => sizeOf l
decreasing_by
  all_goals obtain ⟨n, tg, t⟩ := f
  all_goals simp
  all_goals omega

end

/-- The current contents of a by-value nested struct field (zero values
when the stored value does not have struct shape). -/
def structInner (nested : List GoField) (fv : GoValue) : List GoValue :=
  match fv with
  | .vstruct vs => vs
  | _ => zeroFields nested

/-- The current contents of a pointer nested struct field; a nil pointer
is allocated fresh (`reflect.New`), yielding zero values. -/
def ptrInner (nested : List GoField) (fv : GoValue) : List GoValue :=
  match fv with
  | .vptr (some (.vstruct vs)) => vs
  | _ => zeroFields nested

/-- Result of one whole mapping pass: the updated field values and the
logger transcript, or a returned error, or a strict-mode panic. -/
inductive MapOutcome where
  | ok (vals : List GoValue) (log : List String)
  | err (msg : String) (log : List String)
  | panicked (msg : String) (log : List String)
  deriving Repr

/-- Result of processing one field. -/
inductive FieldRes where
  | cont (v : GoValue) (missing : List String) (log : List String)
  | failed (msg : String) (log : List String)
  | panicked (msg : String) (log : List String)
  deriving Repr

/-- Result of the field loop. -/
inductive StepRes where
  | cont (vals : List GoValue) (missing : List String) (log : List String)
  | failed (msg : String) (log : List String)
  | panicked (msg : String) (log : List String)
  deriving Repr

/-- The validator step after a successful field assignment
(`if validateTag != ""` in `mapToStruct`). -/
def runFieldValidators (ctx : MapperCtx) (v : GoValue) (tg : FieldTags) (n : String)
    (missing : List String) (log : List String) : FieldRes :=
  if tg.validate ≠ "" then
    match validateField ctx.reg v tg.validate n with
    | some e => .failed e log
    | none => .cont v missing log
  else .cont v missing log

/-- The type of the recursive call available to one field step: the
mapping pass applied to a filtered value map, a nested field list, the
nested current values and the log so far. -/
abbrev RecurseFn := StrMap → List GoField → List GoValue → List String → MapOutcome

/-- One iteration of the field loop of `mapToStruct`; `recurse` is the
recursive `mapToStruct` call used for plain nested structs. -/
def mapOneField (recurse : RecurseFn) (ctx : MapperCtx) (values : StrMap) :
    GoField → GoValue → List String → List String → FieldRes
  | (n, tg, .leaf _k), fv, missing, log =>
    if tg.ssm = "" ∧ tg.env = "" then .cont fv missing log
    else
      match resolveRaw ctx.envf values tg.env tg.ssm with
      | none =>
        if isRequiredField tg.required then
          let info := missingFieldInfo n tg.ssm tg.env
          .cont fv (missing ++ [info])
            (addLog ctx.hasLogger log ("WARNING: Required field missing: " ++ info))
        else .cont fv missing log
      | some val =>
        if truthyTag tg.json || !ctx.useStrongTyping then
          match ctx.jsonDec (.leaf _k) val with
          | .error e => .failed ("decoding JSON for field " ++ n ++ ": " ++ e) log
          | .ok v => runFieldValidators ctx v tg n missing log
        else
          match setFieldValue _k val with
          | .error e => .failed ("setting field " ++ n ++ ": " ++ e) log
          | .ok v => runFieldValidators ctx v tg n missing log
  | (n, tg, .strct nested), fv, missing, log =>
    if truthyTag tg.json then
      match resolveRaw ctx.envf values tg.env tg.ssm with
      | none =>
        if isRequiredField tg.required then
          let info := missingFieldInfo n tg.ssm tg.env
          .cont fv (missing ++ [info])
            (addLog ctx.hasLogger log ("WARNING: Required field missing: " ++ info))
        else .cont fv missing log
      | some val =>
        match ctx.jsonDec (.strct nested) val with
        | .error e => .failed ("decoding JSON for nested struct field " ++ n ++ ": " ++ e) log
        | .ok v => runFieldValidators ctx v tg n missing log
    else
      let nestedValues := filterValuesByPrefix values (if tg.ssm ≠ "" then tg.ssm else lowerStr n)
      if isRequiredField tg.required ∧ nestedValues.isEmpty then
        let info := missingNestedInfo n tg.ssm tg.env
        .cont fv (missing ++ [info])
          (addLog ctx.hasLogger log ("WARNING: Required nested struct missing: " ++ info))
      else
        match recurse nestedValues nested (structInner nested fv) log with
        | .ok newInner log2 => runFieldValidators ctx (.vstruct newInner) tg n missing log2
        | .err m log2 => .failed ("mapping nested struct field " ++ n ++ ": " ++ m) log2
        | .panicked m log2 => .panicked m log2
  | (n, tg, .ptrStrct nested), fv, missing, log =>
    if truthyTag tg.json then
      match resolveRaw ctx.envf values tg.env tg.ssm with
      | none =>
        if isRequiredField tg.required then
          let info := missingFieldInfo n tg.ssm tg.env
          .cont fv (missing ++ [info])
            (addLog ctx.hasLogger log ("WARNING: Required field missing: " ++ info))
        else .cont fv missing log
      | some val =>
        match ctx.jsonDec (.strct nested) val with
        | .error e => .failed ("decoding JSON for nested struct field " ++ n ++ ": " ++ e) log
        | .ok v => runFieldValidators ctx (.vptr (some v)) tg n missing log
    else
      let nestedValues := filterValuesByPrefix values (if tg.ssm ≠ "" then tg.ssm else lowerStr n)
      if isRequiredField tg.required ∧ nestedValues.isEmpty then
        let info := missingNestedInfo n tg.ssm tg.env
        .cont fv (missing ++ [info])
          (addLog ctx.hasLogger log ("WARNING: Required nested struct missing: " ++ info))
      else
        match recurse nestedValues nested (ptrInner nested fv) log with
        | .ok newInner log2 =>
          runFieldValidators ctx (.vptr (some (.vstruct newInner))) tg n missing log2
        | .err m log2 => .failed ("mapping nested struct field " ++ n ++ ": " ++ m) log2
        | .panicked m log2 => .panicked m log2

/-- The `for i := 0; i < v.NumField(); i++` loop of `mapToStruct`. -/
def mapFields (recurse : RecurseFn) (ctx : MapperCtx) (values : StrMap) :
    List GoField → List GoValue → List String → List String → StepRes
  | [], _, missing, log => .cont [] missing log
  | _ :: _, [], missing, log => .cont [] missing log
  | f :: rest, fv :: fvrest, missing, log =>
    match mapOneField recurse ctx values f fv missing log with
    | .cont newFv missing2 log2 =>
      match mapFields recurse ctx values rest fvrest missing2 log2 with
      | .cont newRest missing3 log3 => .cont (newFv :: newRest) missing3 log3
      | .failed m l => .failed m l
      | .panicked m l => .panicked m l
    | .failed m l => .failed m l
    | .panicked m l => .panicked m l

/-- `mapToStruct` from `mapper.go`, over a field list and the parallel
list of current field values: run the per-field loop, then panic in
strict mode when required fields were missing, else return success.
`fuel` bounds the struct nesting depth (one unit per nesting level); it
is an artifact of the embedding and any value at least the shape's depth
gives the function's value. -/
def mapToStruct (ctx : MapperCtx) : Nat → StrMap → List GoField → List GoValue →
    List String → MapOutcome
  | 0, _, _, _, log => .err "nesting depth exceeded" log
  | fuel + 1, values, fields, vals, log =>
    match mapFields (mapToStruct ctx fuel) ctx values fields vals [] log with
    | .cont newVals missing log2 =>
      if missing ≠ [] ∧ ctx.strict then
        .panicked ("ssmconfig: Missing required fields: " ++ joinSep ", " missing) log2
      else .ok newVals log2
    | .failed m l => .err m l
    | .panicked m l => .panicked m l

/-! ### Fetch cache (`loadByPrefixWithCache` in `loader.go`)

The concurrent structure (`sync.Map`, `sync.Once`, `atomic.Pointer`) is
modelled as an explicit state threaded through sequential calls: one call
is one caller's complete execution.  `onceDone` is the consumed state of
the entry's one-shot gate; `fetch` is the `loadFromSSM` collaborator.
Each call also reports how many times it invoked `fetch`. -/

/-- A cache entry: the atomic snapshot (nil = not yet loaded or
invalidated) and whether its `sync.Once` has run. -/
structure CacheEntry where
  values : Option StrMap
  onceDone : Bool
  deriving DecidableEq, Repr

/-- The per-prefix cache table. -/
structure CacheState where
  entries : List (String × CacheEntry)
  deriving DecidableEq, Repr

/-- Table lookup (`l.cache.Load`). -/
def cacheLookup (st : CacheState) (pre : String) : Option CacheEntry :=
  (st.entries.find? (fun kv => kv.1 = pre)).map (fun kv => kv.2)

/-- Table write (`l.cache.Store` / `LoadOrStore` of a fresh entry). -/
def cacheStore (st : CacheState) (pre : String) (e : CacheEntry) : CacheState :=
  if st.entries.any (fun kv => kv.1 = pre) then
    ⟨st.entries.map (fun kv => if kv.1 = pre then (pre, e) else kv)⟩
  else ⟨st.entries ++ [(pre, e)]⟩

/-- `loadByPrefixWithCache` from `loader.go`.  Returns the call's result,
the cache state after the call, and the number of `fetch` invocations the
call performed. -/
def loadByPrefixWithCache (fetch : String → Except String StrMap) (st : CacheState)
    (pre : String) (useCache : Bool) : Except String StrMap × CacheState × Nat :=
  if !useCache then
    match fetch pre with
    | .error e => (.error e, st, 1)
    | .ok result =>
      match cacheLookup st pre with
      | some entry => (.ok result, cacheStore st pre { entry with values := some result }, 1)
      | none => (.ok result, st, 1)
  else
    let (entry, st1) :=
      match cacheLookup st pre with
      | some e => (e, st)
      | none =>
        let newEntry : CacheEntry := { values := none, onceDone := false }
        (newEntry, cacheStore st pre newEntry)
    match entry.values with
    | some cachedValues => (.ok cachedValues, st1, 0)
    | none =>
      if entry.onceDone then
        match (cacheLookup st1 pre).bind (fun e => e.values) with
        | some cachedValues => (.ok cachedValues, st1, 0)
        | none => (.error ("failed to load parameters for prefix: " ++ pre), st1, 0)
      else
        match fetch pre with
        | .error e =>
          (.error e, cacheStore st1 pre { values := none, onceDone := true }, 1)
        | .ok result =>
          (.ok result, cacheStore st1 pre { values := some result, onceDone := true }, 1)

/-- `InvalidateCache` from `loader.go`: replace the snapshot-and-gate of
an existing entry (all entries for the empty string) with a fresh one; a
prefix with no entry is untouched. -/
def invalidateCache (st : CacheState) (pre : String) : CacheState :=
  if pre = "" then
    ⟨st.entries.map (fun kv => (kv.1, ({ values := none, onceDone := false } : CacheEntry)))⟩
  else
    match cacheLookup st pre with
    | some _ => cacheStore st pre { values := none, onceDone := false }
    | none => st

/-! ### Refreshing handle (`refresh.go`)

The exposed `*T` is modelled as an allocation tag paired with the record
value, so pointer replacement and value equality are distinguishable.
The reload (`InvalidateCache` + `LoadWithLoader`) is the collaborator,
passed in as the already-determined `loadResult`; the lock and the
callback are recorded as an ordered event trace. -/

/-- A pointer to an immutable record: allocation id plus contents.  Go's
`reflect.DeepEqual` on two such pointers compares the contents. -/
structure Alloc (α : Type) where
  id : Nat
  val : α
  deriving DecidableEq, Repr

/-- The state of a `RefreshingConfig`: the exposed record pointer and
whether an on-change callback is configured. -/
structure RefreshingConfig (α : Type) where
  config : Alloc α
  onChangeSet : Bool
  deriving DecidableEq, Repr

/-- Observable events of one `Refresh` call, in order. -/
inductive RefreshEvent (α : Type) where
  | lockAcquire
  | assign (oldC newC : Alloc α)
  | lockRelease
  | callback (oldC newC : Alloc α)
  deriving DecidableEq, Repr

/-- `Refresh` from `refresh.go`: on a successful reload, take the write
lock, remember the old pointer, compute `hasChanged` by deep equality,
assign the new pointer, release the lock, then invoke the callback with
(old, new) exactly when one is configured and the records differ.  A
reload error is returned unchanged. -/
def Refresh [DecidableEq α] (rc : RefreshingConfig α)
    (loadResult : Except String (Alloc α)) :
    Except String (RefreshingConfig α × List (RefreshEvent α)) :=
  match loadResult with
  | .error e => .error e
  | .ok newConfig =>
    let oldConfig := rc.config
    let hasChanged := decide ¬(oldConfig.val = newConfig.val)
    .ok ({ rc with config := newConfig },
      [.lockAcquire, .assign oldConfig newConfig, .lockRelease] ++
        (if rc.onChangeSet && hasChanged then [.callback oldConfig newConfig] else []))

/-! ### Decimal printing, for round-trip statements -/

/-- Decimal digit characters of `n`, most significant first. -/
def natDigits (n : Nat) : List Char :=
  if _h : n < 10 then [Char.ofNat (48 + n)]
  else natDigits (n / 10) ++ [Char.ofNat (48 + n % 10)]
termination_by n
decreasing_by exact Nat.div_lt_self (by omega) (by omega)

/-- Decimal representation of a natural number. -/
def natDecimal (n : Nat) : String := String.mk (natDigits n)

/-- Decimal representation of an integer (leading `-` when negative). -/
def intDecimal (n : Int) : String :=
  if n < 0 then String.mk ('-' :: natDigits n.natAbs) else natDecimal n.toNat

/-- Smallest value of a signed width. -/
def intMin (w : IntW) : Int := -(2 ^ (w.bits - 1))

/-- Largest value of a signed width. -/
def intMax (w : IntW) : Int := 2 ^ (w.bits - 1) - 1

/-! ### Proof scaffolding for the map-filter characterization -/

/-- The output key (if any) that `filterValuesByPrefix` with non-empty
`pre` derives from an input key. -/
def outKey (pre : String) (k : String) : Option String :=
  if hasPre k (pre ++ "/") then
    some (String.mk (k.toList.drop (pre ++ "/").toList.length))
  else if k = pre then some ""
  else none

/-- The value of the last entry of `l` that maps to output key `q` (Go's
map writes are last-write-wins). -/
def lastOut (pre : String) (l : StrMap) (q : String) : Option String :=
  (l.reverse.find? (fun kv => outKey pre kv.1 = some q)).map (fun kv => kv.2)

/-- Character-level join with a separator, inverse of `splitChar`. -/
def joinChars (sep : Char) : List (List Char) → List Char
  | [] => []
  | [x] => x
  | x :: rest => x ++ sep :: joinChars sep rest

/-- A concrete mapper context: empty environment, failing JSON decoder,
empty registry, non-strict, no logger, strong typing (the loader
defaults). -/
def exCtx : MapperCtx :=
  { envf := fun _ => "", jsonDec := fun _ _ => .error "no json",
    reg := ⟨[], []⟩, strict := false, hasLogger := false, useStrongTyping := true }

/-- `exCtx` with a logger installed. -/
def exCtxLog : MapperCtx := { exCtx with hasLogger := true }

/-- `exCtx` with strict mode and a logger. -/
def exCtxStrict : MapperCtx := { exCtx with strict := true, hasLogger := true }

/-- `exCtx` with one environment variable set. -/
def exCtxEnv : MapperCtx :=
  { exCtx with envf := fun k => if k = "API_KEY" then "fromenv" else "" }

/-- Empty field tags. -/
def exTags : FieldTags := { ssm := "", env := "", required := "", json := "", validate := "" }

/-- The nested record of the specification's example: a string host and
an integer port. -/
def dbFields : List GoField :=
  [("Host", { exTags with ssm := "host" }, .leaf .str),
   ("Port", { exTags with ssm := "port" }, .leaf (.sint .w64))]

/-- A leaf field with remote and env keys, marked required. -/
def exReqTags : FieldTags :=
  { exTags with ssm := "api_key", env := "API_KEY", required := "true" }

/-- A concrete parameterized validator used to instantiate the validator
theorems: accepts exactly the parameter string "a:b". -/
def exParamValidator : GoValue → String → Option String :=
  fun _ params => if params = "a:b" then none else some "wrong params"

/-- A concrete registry used to instantiate the validator theorems. -/
def exReg : Registry :=
  { plainVs := [("boom", fun _ => some "bad value")],
    paramVs := [("p", exParamValidator)] }

/-! ### Theorems -/

/-- Splitting never yields an empty piece list. -/
theorem splitChar_ne_nil (sep : Char) (cs : List Char) : splitChar sep cs ≠ [] := by
  induction cs with
  | nil => simp [splitChar]
  | cons c rest ih =>
    unfold splitChar
    by_cases hc : c = sep
    · simp [hc]
    · simp only [hc, if_false]
      rcases hrec : splitChar sep rest with _ | ⟨h', t'⟩ <;> simp

/-- C9: converting a string into a string-list field splits the input on
commas and trims surrounding whitespace from each element; the empty
input string yields a one-element list containing the empty string, not
an empty list. -/
theorem stringList_split_trim :
    (∀ s, setFieldValue .strSlice s =
      .ok (.vslice ((goSplit s ',').map goTrimSpace))) ∧
    setFieldValue .strSlice "" = .ok (.vslice [""]) ∧
    setFieldValue .strSlice " a , b ,c" = .ok (.vslice ["a", "b", "c"]) :=
  ⟨fun _ => rfl, rfl, rfl⟩

/-- Lookup in a one-step extension of the map. -/
theorem lookupKey_cons (a b q : String) (t : StrMap) :
    lookupKey ((a, b) :: t) q = if a = q then some b else lookupKey t q := by
  by_cases h : a = q
  · rw [lookupKey, List.find?_cons_of_pos _ (by simpa using h), if_pos h]
    rfl
  · rw [lookupKey, List.find?_cons_of_neg _ (by simpa using h), if_neg h]
    rfl

/-- Membership agrees with Go's `any`-style key scan. -/
theorem hasKey_eq_any (m : StrMap) (k : String) :
    hasKey m k = m.any (fun kv => kv.1 = k) := by
  induction m with
  | nil => rfl
  | cons kv t ih =>
    obtain ⟨a, b⟩ := kv
    rw [List.any_cons, ← ih]
    by_cases h : a = k <;> simp [hasKey, lookupKey_cons, h]

/-- Lookup after replacing the binding of `k` throughout the map. -/
theorem lookup_replace (m : StrMap) (k v q : String) :
    lookupKey (m.map (fun kv => if kv.1 = k then (k, v) else kv)) q =
      if q = k then (if hasKey m k then some v else none) else lookupKey m q := by
  induction m with
  | nil => by_cases h : q = k <;> simp [lookupKey, hasKey, h]
  | cons kv t ih =>
    obtain ⟨a, b⟩ := kv
    rw [List.map_cons]
    by_cases h1 : a = k
    · subst h1
      have hk : hasKey ((a, b) :: t) a = true := by
        simp [hasKey, lookupKey_cons]
      by_cases h2 : q = a
      · subst h2
        simp [lookupKey_cons, hk]
      · have hqa : ¬(a = q) := fun hh => h2 hh.symm
        simp [lookupKey_cons, hqa, h2, ih]
    · have hfa : ((a, b) : String × String).1 = k ↔ False := by simp [h1]
      rw [if_neg (by simpa using h1)]
      have hk : hasKey ((a, b) :: t) k = hasKey t k := by
        simp [hasKey, lookupKey_cons, h1]
      rw [lookupKey_cons, ih, lookupKey_cons, hk]
      by_cases h2 : q = k
      · have haq : ¬(a = q) := fun hh => h1 (hh.trans h2)
        rw [if_neg haq, if_neg haq]
      · simp [h2]

/-- Lookup after appending a fresh binding. -/
theorem lookup_append_single (m : StrMap) (k v q : String) :
    lookupKey (m ++ [(k, v)]) q =
      (lookupKey m q).or (if k = q then some v else none) := by
  induction m with
  | nil => simp [lookupKey_cons, lookupKey]
  | cons kv t ih =>
    obtain ⟨a, b⟩ := kv
    rw [List.cons_append, lookupKey_cons, lookupKey_cons]
    by_cases h : a = q
    · simp [h]
    · simp [h, ih]

/-- Lookup after a Go map write: the written key reads back the written
value, every other key is unchanged. -/
theorem lookup_goInsert (m : StrMap) (k v q : String) :
    lookupKey (goInsert m k v) q = if q = k then some v else lookupKey m q := by
  unfold goInsert
  by_cases hk : m.any (fun kv => kv.1 = k) = true
  · rw [if_pos hk, lookup_replace]
    rw [← hasKey_eq_any] at hk
    simp [hk]
  · rw [if_neg hk, lookup_append_single]
    rw [← hasKey_eq_any] at hk
    have hn : lookupKey m k = none := by
      cases hq : lookupKey m k with
      | none => rfl
      | some r => rw [hasKey, hq] at hk; simp at hk
    by_cases h2 : q = k
    · subst h2
      simp [hn]
    · have hkq : ¬(k = q) := fun hh => h2 hh.symm
      cases hq : lookupKey m q <;> simp [hq, h2, hkq]

/-- One step of the `filterValuesByPrefix` loop, phrased through
`outKey`. -/
theorem filterStep_eq (pre : String) (result : StrMap) (kv : String × String) :
    (if hasPre kv.1 (pre ++ "/") then
        goInsert result (String.mk (kv.1.toList.drop (pre ++ "/").toList.length)) kv.2
      else if kv.1 = pre then goInsert result "" kv.2
      else result) =
    (match outKey pre kv.1 with
      | some q => goInsert result q kv.2
      | none => result) := by
  unfold outKey
  by_cases h1 : hasPre kv.1 (pre ++ "/")
  · simp only [h1, if_true, if_pos h1]
  · by_cases h2 : kv.1 = pre
    · rw [h2] at h1
      simp [h1, h2]
    · simp [h1, h2]

/-- Last-write decomposition of `lastOut` at a cons. -/
theorem lastOut_cons (pre : String) (kv : String × String) (t : StrMap) (q : String) :
    lastOut pre (kv :: t) q =
      (lastOut pre t q).or (if outKey pre kv.1 = some q then some kv.2 else none) := by
  unfold lastOut
  rw [List.reverse_cons, List.find?_append]
  by_cases h : outKey pre kv.1 = some q
  · cases hf : t.reverse.find? (fun kv => outKey pre kv.1 = some q) <;>
      simp [hf, List.find?, h]
  · cases hf : t.reverse.find? (fun kv => outKey pre kv.1 = some q) <;>
      simp [hf, List.find?, h]

/-- The filter loop, characterized pointwise: the result of the fold
looks up as the last write for that output key, else as the accumulator. -/
theorem lookup_filter_foldl (pre : String) (l : StrMap) (acc : StrMap) (q : String) :
    lookupKey (l.foldl (fun result kv =>
        if hasPre kv.1 (pre ++ "/") then
          goInsert result (String.mk (kv.1.toList.drop (pre ++ "/").toList.length)) kv.2
        else if kv.1 = pre then goInsert result "" kv.2
        else result) acc) q =
      (lastOut pre l q).or (lookupKey acc q) := by
  induction l generalizing acc with
  | nil => simp [lastOut]
  | cons kv t ih =>
    rw [List.foldl_cons, filterStep_eq, ih, lastOut_cons, Option.or_assoc]
    congr 1
    cases ho : outKey pre kv.1 with
    | none => simp
    | some q' =>
      rw [lookup_goInsert]
      by_cases hqq : q = q'
      · subst hqq
        simp
      · have hq2 : ¬(q' = q) := fun hh => hqq hh.symm
        simp [hqq, hq2]

/-- `String.toList` distributes over append. -/
theorem toList_append (s t : String) : (s ++ t).toList = s.toList ++ t.toList :=
  String.data_append s t

/-- `find?` is direction-independent when at most one element matches. -/
theorem find?_reverse_unique {α : Type} (l : List α) (p : α → Bool)
    (h : l.countP p ≤ 1) : l.reverse.find? p = l.find? p := by
  induction l with
  | nil => rfl
  | cons x t ih =>
    rw [List.countP_cons] at h
    rw [List.reverse_cons, List.find?_append]
    by_cases hx : p x = true
    · rw [if_pos hx] at h
      have h0 : t.countP p = 0 := by omega
      have hnone : t.find? p = none :=
        List.find?_eq_none.mpr (fun a ha hpa => (List.countP_eq_zero.mp h0 a ha) hpa)
      have hnone2 : t.reverse.find? p = none :=
        List.find?_eq_none.mpr
          (fun a ha hpa => (List.countP_eq_zero.mp h0 a (List.mem_reverse.mp ha)) hpa)
      rw [hnone2, List.find?_cons_of_pos _ hx, List.find?_cons_of_pos _ hx]
      rfl
    · rw [if_neg hx] at h
      rw [ih h, List.find?_cons_of_neg _ hx]
      cases hf : t.find? p <;> simp [hf, List.find?, hx]

/-- At most one entry carries a given key in a nodup-key map. -/
theorem countP_keyeq_le_one (m : StrMap) (key : String)
    (h : (m.map Prod.fst).Nodup) : m.countP (fun kv => kv.1 = key) ≤ 1 := by
  induction m with
  | nil => simp
  | cons kv t ih =>
    rw [List.map_cons, List.nodup_cons] at h
    rw [List.countP_cons]
    by_cases hk : kv.1 = key
    · have h0 : t.countP (fun kv => kv.1 = key) = 0 := by
        apply List.countP_eq_zero.mpr
        intro a ha hpa
        apply h.1
        have hak : a.1 = key := by simpa using hpa
        rw [hk, ← hak]
        exact List.mem_map_of_mem _ ha
      simp [hk, h0]
    · have := ih h.2
      simp only [hk, decide_eq_true_eq]
      simp [hk]
      omega

/-- A key absent from the key list looks up to nothing. -/
theorem lookupKey_eq_none_of_not_mem (t : StrMap) (k : String)
    (h : k ∉ t.map Prod.fst) : lookupKey t k = none := by
  unfold lookupKey
  rw [List.find?_eq_none.mpr]
  · rfl
  · intro kv hkv hpkv
    have hk : kv.1 = k := by simpa using hpkv
    exact h (hk ▸ List.mem_map_of_mem Prod.fst hkv)

/-- Membership in a one-step extension. -/
theorem hasKey_cons (a b x : String) (t : StrMap) :
    hasKey ((a, b) :: t) x = ((a = x : Bool) || hasKey t x) := by
  by_cases h : a = x <;> simp [hasKey, lookupKey_cons, h]

/-- When output key `q` comes from exactly the input key `target`, the
last write for `q` is the map's value at `target`. -/
theorem lastOut_keyed (m : StrMap) (pre q target : String)
    (hnd : (m.map Prod.fst).Nodup)
    (hiff : ∀ k, outKey pre k = some q ↔ k = target) :
    lastOut pre m q = lookupKey m target := by
  unfold lastOut lookupKey
  have hfun : (fun kv : String × String => decide (outKey pre kv.1 = some q)) =
      (fun kv : String × String => decide (kv.1 = target)) :=
    funext fun kv => decide_eq_decide.mpr (hiff kv.1)
  show ((m.reverse.find? fun kv => outKey pre kv.1 = some q).map fun kv => kv.2) = _
  rw [show (fun kv : String × String => (outKey pre kv.1 = some q : Bool)) =
      (fun kv : String × String => (kv.1 = target : Bool)) from hfun]
  rw [find?_reverse_unique m _ (countP_keyeq_le_one m target hnd)]

/-- For a non-empty output key `q`, the only input key mapping to `q` is
`pre ++ "/" ++ q`. -/
theorem outKey_eq_some_iff {pre q : String} (hq : q ≠ "") (k : String) :
    outKey pre k = some q ↔ k = pre ++ "/" ++ q := by
  unfold outKey
  by_cases h1 : hasPre k (pre ++ "/")
  · rw [if_pos h1]
    have hp : (pre ++ "/").toList <+: k.toList :=
      List.isPrefixOf_iff_prefix.mp h1
    obtain ⟨t, ht⟩ := hp
    have hdrop : k.toList.drop (pre ++ "/").toList.length = t := by
      rw [← ht, List.drop_left]
    constructor
    · intro h
      have h2 : String.mk t = q := by
        rw [← hdrop]
        simpa using h
      apply String.ext
      show k.toList = ((pre ++ "/") ++ q).toList
      rw [toList_append, ← ht, ← h2]
      rfl
    · intro h
      have hk : k.toList = (pre ++ "/").toList ++ q.toList := by
        rw [h]
        exact toList_append _ _
      rw [show (String.mk (k.toList.drop (pre ++ "/").toList.length)) = q from by
        rw [hk, List.drop_left]
        rfl]
  · rw [if_neg h1]
    have hnk : ¬(k = pre ++ "/" ++ q) := by
      intro h
      apply h1
      unfold hasPre
      apply List.isPrefixOf_iff_prefix.mpr
      rw [h, show ((pre ++ "/" ++ q) : String).toList = (pre ++ "/").toList ++ q.toList from by
        rw [← toList_append]]
      exact List.prefix_append _ _
    by_cases h2 : k = pre
    · simp only [h2, if_pos rfl]
      constructor
      · intro h
        have h3 : ("" : String) = q := by simpa using h
        exact absurd h3.symm hq
      · intro h
        exact absurd (h2 ▸ h) hnk
    · simp only [h2, if_neg h2]
      constructor
      · intro h
        simp at h
      · intro h
        exact absurd h hnk

/-- The input keys mapping to the empty output key are exactly
`pre ++ "/"` (stripped to nothing) and `pre` itself (the exact match). -/
theorem outKey_eq_some_empty_iff (pre k : String) :
    outKey pre k = some "" ↔ (k = pre ++ "/" ∨ k = pre) := by
  unfold outKey
  by_cases h1 : hasPre k (pre ++ "/")
  · rw [if_pos h1]
    have hp : (pre ++ "/").toList <+: k.toList :=
      List.isPrefixOf_iff_prefix.mp h1
    obtain ⟨t, ht⟩ := hp
    have hdrop : k.toList.drop (pre ++ "/").toList.length = t := by
      rw [← ht, List.drop_left]
    have hlen : pre.toList.length < k.toList.length := by
      have h3 : ((pre ++ "/").toList ++ t).length = k.toList.length := by rw [ht]
      rw [List.length_append, toList_append, List.length_append] at h3
      have h4 : ("/" : String).toList.length = 1 := rfl
      rw [h4] at h3
      omega
    constructor
    · intro h
      left
      have h2 : String.mk t = "" := by
        rw [← hdrop]
        simpa using h
      have ht0 : t = [] := congrArg String.toList h2
      apply String.ext
      show k.toList = (pre ++ "/").toList
      rw [← ht, ht0, List.append_nil]
    · rintro (h | h)
      · have hk : k.toList = (pre ++ "/").toList := by rw [h]
        rw [show (String.mk (k.toList.drop (pre ++ "/").toList.length)) = "" from by
          rw [hk, List.drop_length]]
      · rw [h] at hlen
        exact absurd hlen (lt_irrefl _)
  · rw [if_neg h1]
    have hnk : ¬(k = pre ++ "/") := by
      intro h
      apply h1
      unfold hasPre
      apply List.isPrefixOf_iff_prefix.mpr
      rw [h]
    by_cases h2 : k = pre <;> simp [h2, hnk]

/-- The last write for the empty output key, assuming the map does not
contain both `pre` and `pre ++ "/"`. -/
theorem lastOut_empty_key (m : StrMap) (pre : String)
    (hnd : (m.map Prod.fst).Nodup)
    (hex : ¬(hasKey m pre = true ∧ hasKey m (pre ++ "/") = true)) :
    lastOut pre m "" = (lookupKey m (pre ++ "/")).or (lookupKey m pre) := by
  induction m with
  | nil => simp [lastOut, lookupKey]
  | cons kv t ih =>
    obtain ⟨a, b⟩ := kv
    rw [List.map_cons, List.nodup_cons] at hnd
    have hext : ¬(hasKey t pre = true ∧ hasKey t (pre ++ "/") = true) := by
      intro ⟨hp1, hp2⟩
      exact hex ⟨by rw [hasKey_cons, hp1]; simp, by rw [hasKey_cons, hp2]; simp⟩
    rw [lastOut_cons, ih hnd.2 hext, lookupKey_cons, lookupKey_cons]
    by_cases ha1 : a = pre ++ "/"
    · have hkc : hasKey ((a, b) :: t) (pre ++ "/") = true := by
        rw [hasKey_cons, ha1]
        simp
      have hnp : hasKey ((a, b) :: t) pre = false := by
        cases hv : hasKey ((a, b) :: t) pre with
        | false => rfl
        | true => exact absurd ⟨hv, hkc⟩ hex
      rw [hasKey_cons] at hnp
      have hanp : ¬(a = pre) := by
        intro h
        rw [h] at hnp
        simp at hnp
      have ht2 : lookupKey t pre = none := by
        cases hv : lookupKey t pre with
        | none => rfl
        | some r =>
          rw [Bool.or_eq_false_iff] at hnp
          rw [hasKey, hv] at hnp
          simp at hnp
      have ht1 : lookupKey t (pre ++ "/") = none := by
        apply lookupKey_eq_none_of_not_mem
        rw [← ha1]
        exact hnd.1
      have houtk : outKey pre a = some "" :=
        (outKey_eq_some_empty_iff pre a).mpr (Or.inl ha1)
      rw [ha1] at houtk
      simp [ha1, ht1, ht2, houtk, hanp]
    · by_cases ha2 : a = pre
      · have hkc : hasKey ((a, b) :: t) pre = true := by
          rw [hasKey_cons, ha2]
          simp
        have hnp : hasKey ((a, b) :: t) (pre ++ "/") = false := by
          cases hv : hasKey ((a, b) :: t) (pre ++ "/") with
          | false => rfl
          | true => exact absurd ⟨hkc, hv⟩ hex
        rw [hasKey_cons] at hnp
        have ht1 : lookupKey t (pre ++ "/") = none := by
          cases hv : lookupKey t (pre ++ "/") with
          | none => rfl
          | some r =>
            rw [Bool.or_eq_false_iff] at hnp
            rw [hasKey, hv] at hnp
            simp at hnp
        have ht2 : lookupKey t pre = none := by
          apply lookupKey_eq_none_of_not_mem
          rw [← ha2]
          exact hnd.1
        have houtk : outKey pre a = some "" :=
          (outKey_eq_some_empty_iff pre a).mpr (Or.inr ha2)
        rw [ha2] at houtk
        have hprene : ¬(pre = pre ++ "/") := by
          intro h
          have h2 : pre.toList.length = (pre ++ "/").toList.length :=
            congrArg (fun s : String => s.toList.length) h
          rw [toList_append, List.length_append] at h2
          simp at h2
        simp [ha1, ha2, ht1, ht2, houtk, hprene]
      · have houtk : ¬(outKey pre a = some "") := by
          rw [outKey_eq_some_empty_iff]
          rintro (h | h)
          · exact ha1 h
          · exact ha2 h
        rw [if_neg houtk, Option.or_none, if_neg ha1, if_neg ha2]

/-- C2: `filterValuesByPrefix` is pure; with the empty prefix it is the
identity; with a non-empty prefix `p` (on a map with distinct keys, and,
for the empty result key, a map not containing both `p` and `p ++ "/"`)
the result looks up exactly as follows: a non-empty key `q` holds the
input's value at `p ++ "/" ++ q`, the empty key holds the input's value
at the stripped key `p ++ "/"` or, failing that, at the exact match `p`,
and nothing else is present; the two concrete examples of the
specification evaluate as stated. -/
theorem filterValuesByPrefix_spec :
    (∀ m, filterValuesByPrefix m "" = m) ∧
    (∀ (m : StrMap) (pre q : String), pre ≠ "" → q ≠ "" → (m.map Prod.fst).Nodup →
      lookupKey (filterValuesByPrefix m pre) q = lookupKey m (pre ++ "/" ++ q)) ∧
    (∀ (m : StrMap) (pre : String), pre ≠ "" → (m.map Prod.fst).Nodup →
      ¬(hasKey m pre = true ∧ hasKey m (pre ++ "/") = true) →
      lookupKey (filterValuesByPrefix m pre) "" =
        (lookupKey m (pre ++ "/")).or (lookupKey m pre)) ∧
    filterValuesByPrefix
      [("database/host", "localhost"), ("database/port", "5432"), ("server/host", "x")]
      "database" = [("host", "localhost"), ("port", "5432")] ∧
    filterValuesByPrefix [("database", "v")] "database" = [("", "v")] := by
  have hfold : ∀ (m : StrMap) (pre q : String), pre ≠ "" →
      lookupKey (filterValuesByPrefix m pre) q = (lastOut pre m q).or none := by
    intro m pre q hpre
    rw [show filterValuesByPrefix m pre = m.foldl (fun result kv =>
        if hasPre kv.1 (pre ++ "/") then
          goInsert result (String.mk (kv.1.toList.drop (pre ++ "/").toList.length)) kv.2
        else if kv.1 = pre then goInsert result "" kv.2
        else result) [] from by
      unfold filterValuesByPrefix
      rw [if_neg hpre]]
    rw [lookup_filter_foldl]
    rfl
  refine ⟨fun m => by simp [filterValuesByPrefix], ?_, ?_, rfl, rfl⟩
  · intro m pre q hpre hq hnd
    rw [hfold m pre q hpre, Option.or_none,
      lastOut_keyed m pre q (pre ++ "/" ++ q) hnd (outKey_eq_some_iff hq)]
  · intro m pre hpre hnd hex
    rw [hfold m pre "" hpre, Option.or_none, lastOut_empty_key m pre hnd hex]

/-- Witness for C2: the characterizations applied to the concrete
three-entry example map. -/
theorem filterValuesByPrefix_spec_witness :
    ("database" : String) ≠ "" ∧ ("host" : String) ≠ "" ∧
    lookupKey (filterValuesByPrefix
      [("database/host", "localhost"), ("database/port", "5432"), ("server/host", "x")]
      "database") "host" =
      lookupKey
        [("database/host", "localhost"), ("database/port", "5432"), ("server/host", "x")]
        ("database" ++ "/" ++ "host") ∧
    lookupKey (filterValuesByPrefix [("database", "v")] "database") "" =
      (lookupKey [("database", "v")] ("database" ++ "/")).or
        (lookupKey [("database", "v")] "database") :=
  ⟨by decide, by decide,
    filterValuesByPrefix_spec.2.1
      [("database/host", "localhost"), ("database/port", "5432"), ("server/host", "x")]
      "database" "host" (by decide) (by decide) (by decide),
    filterValuesByPrefix_spec.2.2.1 [("database", "v")] "database" (by decide) (by decide)
      (by decide)⟩

/-- C10: for every unsigned integer width, the converter accepts any
string that parses as a base-10 unsigned 64-bit integer and stores the
parsed value reduced modulo `2 ^ width` without error (no width bounds
check, unlike the signed kinds); in particular an 8-bit unsigned field
converts "300" to 44. -/
theorem uint_conversion_truncates (w : IntW) (s : String) (n : Nat)
    (hp : parseUint64 s = some n) :
    setFieldValue (.uint w) s = .ok (.vuint w (n % 2 ^ w.bits)) := by
  simp [setFieldValue, hp]

/-- Witness for C10: converting "300" into an unsigned 8-bit field
succeeds and stores 44 = 300 mod 256. -/
theorem uint_conversion_truncates_witness :
    parseUint64 "300" = some 300 ∧
    setFieldValue (.uint .w8) "300" = .ok (.vuint .w8 (300 % 2 ^ IntW.bits .w8)) :=
  ⟨rfl, uint_conversion_truncates .w8 "300" 300 rfl⟩

/-- Counterexample for C5: converting "300" (whose value 300 is out of
range for the declared 8-bit unsigned width, since 2 ^ 8 = 256 ≤ 300)
does NOT fail with an out-of-range error: it succeeds, silently storing
the truncated value 44. -/
theorem uint8_out_of_range_does_not_fail :
    2 ^ 8 ≤ 300 ∧ setFieldValue (.uint .w8) "300" = .ok (.vuint .w8 44) :=
  ⟨by norm_num, rfl⟩

/-- Appending one digit multiplies the accumulated value by ten. -/
theorem digitsToNat_append (l : List Char) (c : Char) :
    digitsToNat (l ++ [c]) = digitsToNat l * 10 + digitVal c := by
  simp [digitsToNat, List.foldl_append]

/-- The character of a digit below ten has that digit value and passes
the digit test. -/
theorem digitVal_ofDigit {m : Nat} (h : m < 10) :
    digitVal (Char.ofNat (48 + m)) = m ∧ isDigitChar (Char.ofNat (48 + m)) = true := by
  interval_cases m <;> exact ⟨by decide, by decide⟩

/-- `natDigits` produces a non-empty digit string denoting its input. -/
theorem natDigits_spec (n : Nat) :
    ((natDigits n).all isDigitChar = true) ∧ digitsToNat (natDigits n) = n ∧
      natDigits n ≠ [] := by
  induction n using Nat.strong_induction_on with
  | _ n ih =>
    rw [natDigits]
    by_cases h : n < 10
    · simp only [h, dite_true]
      refine ⟨?_, ?_, by simp⟩
      · simp [List.all_cons, (digitVal_ofDigit h).2]
      · simp [digitsToNat, List.foldl, (digitVal_ofDigit h).1]
    · simp only [h, dite_false]
      have hd : n / 10 < n := Nat.div_lt_self (by omega) (by omega)
      obtain ⟨iha, ihv, _⟩ := ih (n / 10) hd
      have hm : n % 10 < 10 := Nat.mod_lt _ (by omega)
      refine ⟨?_, ?_, by simp⟩
      · simp [List.all_append, iha, (digitVal_ofDigit hm).2]
      · rw [digitsToNat_append, ihv, (digitVal_ofDigit hm).1]
        omega

/-- The decimal printer is a right inverse of the unsigned parser. -/
theorem parseUint64_natDecimal {n : Nat} (h : n < 2 ^ 64) :
    parseUint64 (natDecimal n) = some n := by
  obtain ⟨ha, hv, hne⟩ := natDigits_spec n
  have hie : (natDigits n).isEmpty = false := by
    cases hnn : natDigits n with
    | nil => exact absurd hnn hne
    | cons c t => rfl
  show parseUintChars (natDigits n) = some n
  simp only [parseUintChars, hie, ha, hv, h, Bool.false_eq_true, if_false, if_true,
    if_pos h]

/-- `parseIntChars` only returns signed 64-bit values. -/
theorem parseIntChars_bounds {cs : List Char} {n : Int} (h : parseIntChars cs = some n) :
    -(2 ^ 63) ≤ n ∧ n < 2 ^ 63 := by
  rcases cs with _ | ⟨c, rest⟩
  · simp [parseIntChars] at h
  · simp only [parseIntChars] at h
    split_ifs at h <;> simp at h <;> omega

/-- `parseInt64` only returns signed 64-bit values. -/
theorem parseInt64_bounds {s : String} {n : Int} (h : parseInt64 s = some n) :
    -(2 ^ 63) ≤ n ∧ n < 2 ^ 63 := by
  unfold parseInt64 at h
  exact parseIntChars_bounds h

/-- The decimal printer is a right inverse of the signed parser. -/
theorem parseInt64_intDecimal {n : Int} (hlo : -(2 ^ 63) ≤ n) (hhi : n < 2 ^ 63) :
    parseInt64 (intDecimal n) = some n := by
  by_cases hneg : n < 0
  · have habs : n.natAbs ≤ 2 ^ 63 := by omega
    obtain ⟨ha, hv, hne⟩ := natDigits_spec n.natAbs
    have hie : (natDigits n.natAbs).isEmpty = false := by
      cases hnn : natDigits n.natAbs with
      | nil => exact absurd hnn hne
      | cons c t => rfl
    rw [show intDecimal n = String.mk ('-' :: natDigits n.natAbs) from by
      simp [intDecimal, hneg]]
    show parseIntChars ('-' :: natDigits n.natAbs) = some n
    simp [parseIntChars, hie, ha, hv, habs]
    refine ⟨by omega, ?_⟩
    rw [Int.abs_eq_natAbs]
    omega
  · push_neg at hneg
    obtain ⟨ha, hv, hne⟩ := natDigits_spec n.toNat
    have hie : (natDigits n.toNat).isEmpty = false := by
      cases hnn : natDigits n.toNat with
      | nil => exact absurd hnn hne
      | cons c t => rfl
    rw [show intDecimal n = String.mk (natDigits n.toNat) from by
      simp [intDecimal, not_lt.mpr hneg, natDecimal]]
    show parseIntChars (natDigits n.toNat) = some n
    obtain ⟨c, rest, hcr⟩ := List.exists_cons_of_ne_nil hne
    rw [hcr]
    have hc : isDigitChar c = true := by
      rw [hcr, List.all_cons, Bool.and_eq_true] at ha
      exact ha.1
    have hcm : ¬(c = '-' ∨ c = '+') := by
      rintro (rfl | rfl) <;> revert hc <;> decide
    have hcminus : ¬(c = '-') := fun hh => hcm (Or.inl hh)
    have hie2 : (c :: rest).isEmpty = false := rfl
    have ha2 : (c :: rest).all isDigitChar = true := by rw [← hcr]; exact ha
    have hv2 : digitsToNat (c :: rest) = n.toNat := by rw [← hcr]; exact hv
    have hlt : digitsToNat (c :: rest) < 2 ^ 63 := by omega
    simp only [parseIntChars, if_neg hcm, hie2, ha2, hv2, Bool.false_eq_true, if_false,
      if_true, if_neg hcminus, if_pos (by omega : (n.toNat : Nat) < 2 ^ 63)]
    congr 1
    omega

/-- In-range values pass through the `reflect` signed setter unchanged. -/
theorem wrapSigned_eq_self {w : IntW} {n : Int} (hlo : intMin w ≤ n) (hhi : n ≤ intMax w) :
    wrapSigned w n = n := by
  cases w <;> simp [wrapSigned, intMin, intMax, IntW.bits] at * <;> omega

/-- C5 (amended): out-of-range integers fail only for the signed widths:
a parsed signed value outside the declared 8-, 16- or 32-bit range
returns an explicit out-of-range error, a string outside the signed
64-bit range already fails the parse, and a parsed value is always within
the 64-bit bounds; unsigned widths perform no bounds check and store the
parsed value modulo `2 ^ width` without error.  In-range values of every
scalar kind the embedding covers (string, signed and unsigned integers of
all widths, boolean) convert to exactly the original typed value. -/
theorem scalar_conversion_ranges :
    (∀ s n, parseInt64 s = some n → (127 < n ∨ n < -128) →
      setFieldValue (.sint .w8) s = .error ("value " ++ toString n ++ " out of range for int8")) ∧
    (∀ s n, parseInt64 s = some n → (32767 < n ∨ n < -32768) →
      setFieldValue (.sint .w16) s =
        .error ("value " ++ toString n ++ " out of range for int16")) ∧
    (∀ s n, parseInt64 s = some n → (2147483647 < n ∨ n < -2147483648) →
      setFieldValue (.sint .w32) s =
        .error ("value " ++ toString n ++ " out of range for int32")) ∧
    (∀ s n, parseInt64 s = some n → intMin .w64 ≤ n ∧ n ≤ intMax .w64) ∧
    (∀ w s, parseInt64 s = none → setFieldValue (.sint w) s = .error "invalid int value") ∧
    (∀ w s n, parseInt64 s = some n → intMin w ≤ n → n ≤ intMax w →
      setFieldValue (.sint w) s = .ok (.vint w n)) ∧
    (∀ w s n, parseUint64 s = some n → n < 2 ^ w.bits →
      setFieldValue (.uint w) s = .ok (.vuint w n)) ∧
    (∀ w n, intMin w ≤ n → n ≤ intMax w →
      setFieldValue (.sint w) (intDecimal n) = .ok (.vint w n)) ∧
    (∀ w n, n < 2 ^ w.bits → setFieldValue (.uint w) (natDecimal n) = .ok (.vuint w n)) ∧
    (∀ s, setFieldValue .str s = .ok (.vstr s)) ∧
    setFieldValue .boolKind "true" = .ok (.vbool true) ∧
    setFieldValue .boolKind "false" = .ok (.vbool false) := by
  have hofr8 : ∀ s n, parseInt64 s = some n → (127 < n ∨ n < -128) →
      setFieldValue (.sint .w8) s =
        .error ("value " ++ toString n ++ " out of range for int8") := by
    intro s n hp hr
    simp only [setFieldValue, hp]
    rw [if_pos (by omega)]
  have hofr16 : ∀ s n, parseInt64 s = some n → (32767 < n ∨ n < -32768) →
      setFieldValue (.sint .w16) s =
        .error ("value " ++ toString n ++ " out of range for int16") := by
    intro s n hp hr
    simp only [setFieldValue, hp]
    rw [if_pos (by omega)]
  have hofr32 : ∀ s n, parseInt64 s = some n → (2147483647 < n ∨ n < -2147483648) →
      setFieldValue (.sint .w32) s =
        .error ("value " ++ toString n ++ " out of range for int32") := by
    intro s n hp hr
    simp only [setFieldValue, hp]
    rw [if_pos (by omega)]
  have hok : ∀ w s n, parseInt64 s = some n → intMin w ≤ n → n ≤ intMax w →
      setFieldValue (.sint w) s = .ok (.vint w n) := by
    intro w s n hp hlo hhi
    have hw := wrapSigned_eq_self hlo hhi
    cases w <;> simp only [setFieldValue, hp] <;>
      first
        | (rw [if_neg (by simp [intMin, intMax, IntW.bits] at hlo hhi; omega), hw])
        | (rw [hw])
  have huok : ∀ w s n, parseUint64 s = some n → n < 2 ^ w.bits →
      setFieldValue (.uint w) s = .ok (.vuint w n) := by
    intro w s n hp hlt
    simp only [setFieldValue, hp]
    rw [Nat.mod_eq_of_lt hlt]
  refine ⟨hofr8, hofr16, hofr32, ?_, ?_, hok, huok, ?_, ?_, fun s => rfl, rfl, rfl⟩
  · intro s n hp
    have := parseInt64_bounds hp
    simp only [intMin, intMax, IntW.bits]
    omega
  · intro w s hp
    simp only [setFieldValue, hp]
  · intro w n hlo hhi
    have hb : -(2 ^ 63) ≤ n ∧ n < 2 ^ 63 := by
      cases w <;> simp [intMin, intMax, IntW.bits] at hlo hhi <;> omega
    exact hok w (intDecimal n) n (parseInt64_intDecimal hb.1 hb.2) hlo hhi
  · intro w n hlt
    have hb : n < 2 ^ 64 := by
      have : (2 : Nat) ^ w.bits ≤ 2 ^ 64 := by
        cases w <;> simp [IntW.bits]
      omega
    exact huok w (natDecimal n) n (parseUint64_natDecimal hb) hlt

/-- Witness for C5 (amended): 200 is out of range for a signed 8-bit
field and errs; 100 is in range and round-trips; 300 fits an unsigned
16-bit field and round-trips. -/
theorem scalar_conversion_ranges_witness :
    parseInt64 "200" = some 200 ∧
    setFieldValue (.sint .w8) "200" =
      .error ("value " ++ toString (200 : Int) ++ " out of range for int8") ∧
    parseInt64 "100" = some 100 ∧ setFieldValue (.sint .w8) "100" = .ok (.vint .w8 100) ∧
    parseUint64 "300" = some 300 ∧
    setFieldValue (.uint .w16) "300" = .ok (.vuint .w16 300) :=
  ⟨rfl, scalar_conversion_ranges.1 "200" 200 rfl (Or.inl (by norm_num)), rfl,
    scalar_conversion_ranges.2.2.2.2.2.1 .w8 "100" 100 rfl
      (by norm_num [intMin, IntW.bits]) (by norm_num [intMax, IntW.bits]), rfl,
    scalar_conversion_ranges.2.2.2.2.2.2.1 .w16 "300" 300 rfl (by norm_num [IntW.bits])⟩

/-- The split step at a separator character. -/
theorem splitChar_cons_sep (sep : Char) (rest : List Char) :
    splitChar sep (sep :: rest) = [] :: splitChar sep rest := by
  show (if sep = sep then [] :: splitChar sep rest
    else
      match splitChar sep rest with
      | [] => [[sep]]
      | h :: t => (sep :: h) :: t) = [] :: splitChar sep rest
  rw [if_pos rfl]

/-- The split step at a non-separator character. -/
theorem splitChar_cons_ne (sep c : Char) (rest : List Char) (hc : ¬(c = sep)) :
    splitChar sep (c :: rest) =
      (match splitChar sep rest with
        | [] => [[c]]
        | h :: t => (c :: h) :: t) := by
  show (if c = sep then [] :: splitChar sep rest
    else
      match splitChar sep rest with
      | [] => [[c]]
      | h :: t => (c :: h) :: t) = _
  rw [if_neg hc]

/-- Splitting at a separator that first occurs after a separator-free
lead isolates that lead. -/
theorem splitChar_append_sep (sep : Char) (xs ys : List Char)
    (h : ∀ c ∈ xs, c ≠ sep) : splitChar sep (xs ++ sep :: ys) = xs :: splitChar sep ys := by
  induction xs with
  | nil => rw [List.nil_append, splitChar_cons_sep]
  | cons c rest ih =>
    have hc : ¬(c = sep) := h c (by simp)
    rw [List.cons_append, splitChar_cons_ne sep c _ hc,
      ih (fun d hd => h d (by simp [hd]))]

/-- A separator-free list splits into one piece. -/
theorem splitChar_no_sep (sep : Char) (xs : List Char)
    (h : ∀ c ∈ xs, c ≠ sep) : splitChar sep xs = [xs] := by
  induction xs with
  | nil => rfl
  | cons c rest ih =>
    have hc : ¬(c = sep) := h c (by simp)
    rw [splitChar_cons_ne sep c _ hc, ih (fun d hd => h d (by simp [hd]))]

/-- `joinChars` on a one-piece list. -/
theorem joinChars_single (sep : Char) (x : List Char) : joinChars sep [x] = x := rfl

/-- `joinChars` on at least two pieces. -/
theorem joinChars_cons2 (sep : Char) (x y : List Char) (t : List (List Char)) :
    joinChars sep (x :: y :: t) = x ++ sep :: joinChars sep (y :: t) := rfl

/-- `joinChars` is a left inverse of `splitChar`. -/
theorem joinChars_splitChar (sep : Char) (cs : List Char) :
    joinChars sep (splitChar sep cs) = cs := by
  induction cs with
  | nil => rfl
  | cons c rest ih =>
    rcases hs : splitChar sep rest with _ | ⟨h', t'⟩
    · exact absurd hs (splitChar_ne_nil sep rest)
    · by_cases hc : c = sep
      · rw [hc, splitChar_cons_sep, hs, joinChars_cons2, List.nil_append, ← hs, ih]
      · have hsp : splitChar sep (c :: rest) = (c :: h') :: t' := by
          rw [splitChar_cons_ne sep c _ hc, hs]
        rw [hsp]
        rw [hs] at ih
        rcases t' with _ | ⟨u, us⟩
        · rw [joinChars_single]
          rw [joinChars_single] at ih
          rw [ih]
        · rw [joinChars_cons2]
          rw [joinChars_cons2] at ih
          rw [List.cons_append, ih]

/-- Appending strings is appending their character lists. -/
theorem mk_append (a b : List Char) : String.mk a ++ String.mk b = String.mk (a ++ b) := rfl

/-- A string is the string of its characters. -/
theorem mk_toList (s : String) : String.mk s.toList = s := rfl

/-- `joinSep` on at least two pieces. -/
theorem joinSep_cons2 (sep x y : String) (t : List String) :
    joinSep sep (x :: y :: t) = x ++ sep ++ joinSep sep (y :: t) := rfl

/-- `joinSep` on packed pieces is `joinChars` underneath. -/
theorem joinSep_map_mk (sep : Char) (ps : List (List Char)) :
    joinSep (String.mk [sep]) (ps.map String.mk) = String.mk (joinChars sep ps) := by
  induction ps with
  | nil => rfl
  | cons x rest ih =>
    rcases rest with _ | ⟨y, ys⟩
    · rfl
    · rw [List.map_cons, List.map_cons, joinSep_cons2,
        show (String.mk y :: List.map String.mk ys) = List.map String.mk (y :: ys) from rfl,
        ih, mk_append, mk_append, List.append_assoc, joinChars_cons2]
      rfl

/-- `splitN2` on a string whose first colon separates `name` from
`params`: the name is split off and the parameters, colons included, are
kept whole. -/
theorem splitN2_spec (name params : String) (hname : ∀ c ∈ name.toList, c ≠ ':') :
    splitN2 (name ++ ":" ++ params) ':' = [name, params] := by
  have hlist : (name ++ ":" ++ params).toList = name.toList ++ ':' :: params.toList := by
    rw [toList_append, toList_append, List.append_assoc]
    rfl
  have hsplit : goSplit (name ++ ":" ++ params) ':' = name :: goSplit params ':' := by
    unfold goSplit
    rw [hlist, splitChar_append_sep ':' _ _ hname, List.map_cons, mk_toList]
  unfold splitN2
  rw [hsplit]
  rcases hs : goSplit params ':' with _ | ⟨h', t'⟩
  · exact absurd (by simpa [goSplit] using hs) (fun hh => splitChar_ne_nil ':' params.toList hh)
  · have hjoin : joinSep (String.mk [':']) (goSplit params ':') = params := by
      unfold goSplit
      rw [joinSep_map_mk, joinChars_splitChar]
      rfl
    show [name, joinSep (String.mk [':']) (h' :: t')] = [name, params]
    rw [← hs, hjoin]

/-- `splitN2` leaves a colon-free string whole. -/
theorem splitN2_no_colon (s : String) (h : ∀ c ∈ s.toList, c ≠ ':') :
    splitN2 s ':' = [s] := by
  unfold splitN2 goSplit
  rw [splitChar_no_sep ':' _ h, List.map_cons, List.map_nil, mk_toList]

/-- C6: `validateField` splits the `validate` tag on commas into specs
and runs them in declaration order; each spec is split on its first colon
only, so parameter strings may themselves contain colons; a spec with a
non-empty colon parameter tries the parameterized registry first, falling
back to the plain registry; a spec matching neither registry fails with a
not-found error naming the spec and the field; a validator failure aborts
(the remaining specs do not run) with an error naming the field and the
failing spec, while a success continues with the next spec. -/
theorem validateField_resolution :
    (∀ reg (s : String) tag f, tag ≠ "" →
      validateField reg (.vstr s) tag f =
        runValidatorSpecs reg (.vstr s) (goSplit tag ',') f) ∧
    (∀ name params : String, (∀ c ∈ name.toList, c ≠ ':') →
      splitN2 (name ++ ":" ++ params) ':' = [name, params]) ∧
    (∀ reg v f rest spec key params pv, goTrimSpace spec = spec → spec ≠ "" →
      splitN2 spec ':' = [key, params] → params ≠ "" →
      getParameterizedValidator reg key = some pv →
      runValidatorSpecs reg v (spec :: rest) f =
        (match pv v params with
          | some e => some ("validation failed for field \x27" ++ f ++
              "\x27 using validator \x27" ++ spec ++ "\x27: " ++ e)
          | none => runValidatorSpecs reg v rest f)) ∧
    (∀ reg v f rest spec key params pl, goTrimSpace spec = spec → spec ≠ "" →
      splitN2 spec ':' = [key, params] → params ≠ "" →
      getParameterizedValidator reg key = none → getValidator reg key = some pl →
      runValidatorSpecs reg v (spec :: rest) f =
        (match pl v with
          | some e => some ("validation failed for field \x27" ++ f ++
              "\x27 using validator \x27" ++ spec ++ "\x27: " ++ e)
          | none => runValidatorSpecs reg v rest f)) ∧
    (∀ reg v f rest spec key params, goTrimSpace spec = spec → spec ≠ "" →
      splitN2 spec ':' = [key, params] → params ≠ "" →
      getParameterizedValidator reg key = none → getValidator reg key = none →
      runValidatorSpecs reg v (spec :: rest) f =
        some ("validator \x27" ++ spec ++ "\x27 not found for field \x27" ++ f ++ "\x27")) ∧
    (∀ reg v f rest spec pl, goTrimSpace spec = spec → spec ≠ "" →
      splitN2 spec ':' = [spec] → getValidator reg spec = some pl →
      runValidatorSpecs reg v (spec :: rest) f =
        (match pl v with
          | some e => some ("validation failed for field \x27" ++ f ++
              "\x27 using validator \x27" ++ spec ++ "\x27: " ++ e)
          | none => runValidatorSpecs reg v rest f)) := by
  refine ⟨?_, splitN2_spec, ?_, ?_, ?_, ?_⟩
  · intro reg s tag f htag
    unfold validateField
    rw [if_neg htag]
  · intro reg v f rest spec key params pv htrim hne hsplit hp hpv
    simp only [runValidatorSpecs, htrim]
    rw [if_neg hne, hsplit]
    have hparts1 : ([key, params] : List String).headD "" = key := rfl
    have hparts2 : (if ([key, params] : List String).length > 1 then
        ([key, params] : List String).getD 1 "" else "") = params := rfl
    rw [hparts1, hparts2, if_pos hp, hpv]
  · intro reg v f rest spec key params pl htrim hne hsplit hp hpv hpl
    simp only [runValidatorSpecs, htrim]
    rw [if_neg hne, hsplit]
    have hparts1 : ([key, params] : List String).headD "" = key := rfl
    have hparts2 : (if ([key, params] : List String).length > 1 then
        ([key, params] : List String).getD 1 "" else "") = params := rfl
    rw [hparts1, hparts2, if_pos hp, hpv, hpl]
  · intro reg v f rest spec key params htrim hne hsplit hp hpv hpl
    simp only [runValidatorSpecs, htrim]
    rw [if_neg hne, hsplit]
    have hparts1 : ([key, params] : List String).headD "" = key := rfl
    have hparts2 : (if ([key, params] : List String).length > 1 then
        ([key, params] : List String).getD 1 "" else "") = params := rfl
    rw [hparts1, hparts2, if_pos hp, hpv, hpl]
  · intro reg v f rest spec pl htrim hne hsplit hpl
    simp only [runValidatorSpecs, htrim]
    rw [if_neg hne, hsplit]
    have hparts1 : ([spec] : List String).headD "" = spec := rfl
    have hparts2 : (if ([spec] : List String).length > 1 then
        ([spec] : List String).getD 1 "" else "") = "" := rfl
    rw [hparts1, hparts2, if_neg (fun h => h rfl), hpl]

/-- Witness for C6: a parameterized spec "p:a:b" resolves the key before
the first colon against the parameterized registry and passes the whole
remainder "a:b" as the parameter string. -/
theorem validateField_resolution_witness :
    goTrimSpace "p:a:b" = "p:a:b" ∧ ("p:a:b" : String) ≠ "" ∧
    splitN2 "p:a:b" ':' = ["p", "a:b"] ∧ ("a:b" : String) ≠ "" ∧
    getParameterizedValidator exReg "p" = some exParamValidator ∧
    runValidatorSpecs exReg (.vstr "x") ["p:a:b"] "F" =
      (match exParamValidator (.vstr "x") "a:b" with
        | some e => some ("validation failed for field \x27F\x27 using validator \x27" ++
            "p:a:b" ++ "\x27: " ++ e)
        | none => runValidatorSpecs exReg (.vstr "x") [] "F") :=
  ⟨rfl, by decide, rfl, by decide, rfl,
    validateField_resolution.2.2.1 exReg (.vstr "x") "F" [] "p:a:b" "p" "a:b"
      exParamValidator rfl (by decide) rfl (by decide) rfl⟩

/-- Association lookup at a cons, for arbitrary entry types. -/
theorem alookup_cons {α : Type} (a : String) (b : α) (t : List (String × α)) (q : String) :
    (((a, b) :: t).find? (fun kv => kv.1 = q)).map (fun kv => kv.2) =
      if a = q then some b else (t.find? (fun kv => kv.1 = q)).map (fun kv => kv.2) := by
  by_cases h : a = q
  · rw [List.find?_cons_of_pos _ (by simpa using h), if_pos h]
    rfl
  · rw [List.find?_cons_of_neg _ (by simpa using h), if_neg h]

/-- Association lookup after replacing a key's binding throughout. -/
theorem alookup_replace {α : Type} (m : List (String × α)) (k : String) (v : α) (q : String) :
    ((m.map (fun kv => if kv.1 = k then (k, v) else kv)).find?
        (fun kv => kv.1 = q)).map (fun kv => kv.2) =
      if q = k then
        (if (m.find? (fun kv => kv.1 = k)).isSome then some v else none)
      else (m.find? (fun kv => kv.1 = q)).map (fun kv => kv.2) := by
  induction m with
  | nil => by_cases h : q = k <;> simp [h]
  | cons kv t ih =>
    obtain ⟨a, b⟩ := kv
    rw [List.map_cons]
    by_cases h1 : a = k
    · subst h1
      rw [show (if ((a, b) : String × α).1 = a then (a, v) else (a, b)) = (a, v)
        from by simp]
      have hk : (List.find? (fun kv => kv.1 = a) ((a, b) :: t)).isSome = true := by
        rw [List.find?_cons_of_pos _ (by simp)]
        rfl
      by_cases h2 : q = a
      · subst h2
        rw [alookup_cons, if_pos rfl, if_pos rfl, hk]
        simp
      · have hqa : ¬(a = q) := fun hh => h2 hh.symm
        rw [alookup_cons, if_neg hqa, ih, if_neg h2, if_neg h2, alookup_cons, if_neg hqa]
    · rw [show (if ((a, b) : String × α).1 = k then (k, v) else (a, b)) = (a, b)
        from by simp [h1]]
      have hk : (List.find? (fun kv => kv.1 = k) ((a, b) :: t)).isSome =
          (List.find? (fun kv => kv.1 = k) t).isSome := by
        rw [List.find?_cons_of_neg _ (by simpa using h1)]
      rw [alookup_cons, ih, alookup_cons, hk]
      by_cases h2 : q = k
      · have haq : ¬(a = q) := fun hh => h1 (hh.trans h2)
        rw [if_neg haq, if_neg haq]
      · simp [h2]

/-- Association lookup after appending a fresh binding. -/
theorem alookup_append {α : Type} (m : List (String × α)) (k : String) (v : α) (q : String) :
    ((m ++ [(k, v)]).find? (fun kv => kv.1 = q)).map (fun kv => kv.2) =
      ((m.find? (fun kv => kv.1 = q)).map (fun kv => kv.2)).or
        (if k = q then some v else none) := by
  induction m with
  | nil =>
    rw [List.nil_append, alookup_cons]
    by_cases h : k = q <;> simp [h]
  | cons kv t ih =>
    obtain ⟨a, b⟩ := kv
    rw [List.cons_append, alookup_cons, alookup_cons]
    by_cases h : a = q
    · simp [h]
    · rw [if_neg h, if_neg h, ih]

/-- Lookup after a cache table write. -/
theorem cacheLookup_store (st : CacheState) (p : String) (e : CacheEntry) (q : String) :
    cacheLookup (cacheStore st p e) q = if q = p then some e else cacheLookup st q := by
  unfold cacheStore cacheLookup
  by_cases hk : st.entries.any (fun kv => kv.1 = p) = true
  · rw [if_pos hk]
    show ((st.entries.map (fun kv => if kv.1 = p then (p, e) else kv)).find?
        (fun kv => kv.1 = q)).map (fun kv => kv.2) = _
    rw [alookup_replace]
    have hsome : (st.entries.find? (fun kv => kv.1 = p)).isSome = true := by
      rw [List.find?_isSome]
      obtain ⟨x, hx, hpx⟩ := List.any_eq_true.mp hk
      exact ⟨x, hx, hpx⟩
    rw [hsome]
    by_cases h2 : q = p <;> simp [h2]
  · rw [if_neg hk]
    show ((st.entries ++ [(p, e)]).find? (fun kv => kv.1 = q)).map (fun kv => kv.2) = _
    rw [alookup_append]
    have hnone : st.entries.find? (fun kv => kv.1 = p) = none := by
      cases hf : st.entries.find? (fun kv => kv.1 = p) with
      | none => rfl
      | some x =>
        exact absurd
          (List.any_eq_true.mpr ⟨x, List.mem_of_find?_eq_some hf, List.find?_some hf⟩) hk
    by_cases h2 : q = p
    · subst h2
      rw [hnone]
      simp
    · have hpq : ¬(p = q) := fun hh => h2 hh.symm
      rw [if_neg h2, if_neg hpq]
      cases hf : st.entries.find? (fun kv => kv.1 = q) <;> rfl

/-- C7: a cache-enabled resolve whose single-flight fetch fails leaves
the entry's snapshot unpopulated (nil) with the one-shot gate consumed,
returns the fetch error to the caller that performed the fetch, and a
subsequent caller that finds the gate consumed and the snapshot still nil
receives the "failed to load parameters for prefix" error without the
fetch being retried (its call performs zero fetches). -/
theorem cache_failed_fetch (fetch : String → Except String StrMap) (st : CacheState)
    (pre e : String) (hf : fetch pre = .error e)
    (hmiss : cacheLookup st pre = none ∨
      cacheLookup st pre = some { values := none, onceDone := false }) :
    ∃ st1 : CacheState,
      loadByPrefixWithCache fetch st pre true = (.error e, st1, 1) ∧
      cacheLookup st1 pre = some { values := none, onceDone := true } ∧
      loadByPrefixWithCache fetch st1 pre true =
        (.error ("failed to load parameters for prefix: " ++ pre), st1, 0) := by
  have hsecond : ∀ st1 : CacheState,
      cacheLookup st1 pre = some { values := none, onceDone := true } →
      loadByPrefixWithCache fetch st1 pre true =
        (.error ("failed to load parameters for prefix: " ++ pre), st1, 0) := by
    intro st1 h1
    simp only [loadByPrefixWithCache, h1, Bool.not_true, Bool.false_eq_true, if_false,
      if_true, Option.bind]
  rcases hmiss with hmiss | hmiss
  · refine ⟨cacheStore (cacheStore st pre { values := none, onceDone := false }) pre
      { values := none, onceDone := true }, ?_, ?_, ?_⟩
    · simp only [loadByPrefixWithCache, hmiss, hf, Bool.not_true, Bool.false_eq_true,
        if_false, if_true]
    · rw [cacheLookup_store, if_pos rfl]
    · exact hsecond _ (by rw [cacheLookup_store, if_pos rfl])
  · refine ⟨cacheStore st pre { values := none, onceDone := true }, ?_, ?_, ?_⟩
    · simp only [loadByPrefixWithCache, hmiss, hf, Bool.not_true, Bool.false_eq_true,
        if_false, if_true]
    · rw [cacheLookup_store, if_pos rfl]
    · exact hsecond _ (by rw [cacheLookup_store, if_pos rfl])

/-- Witness for C7: the failed-fetch behaviour at a concrete prefix and a
fetch that always fails, starting from the empty cache. -/
theorem cache_failed_fetch_witness :
    (fun _ : String => (.error "boom" : Except String StrMap)) "app" = .error "boom" ∧
    cacheLookup ⟨[]⟩ "app" = none ∧
    (∃ st1 : CacheState,
      loadByPrefixWithCache (fun _ => .error "boom") ⟨[]⟩ "app" true =
        (.error "boom", st1, 1) ∧
      cacheLookup st1 "app" = some { values := none, onceDone := true } ∧
      loadByPrefixWithCache (fun _ => .error "boom") st1 "app" true =
        (.error ("failed to load parameters for prefix: " ++ "app"), st1, 0)) :=
  ⟨rfl, rfl,
    cache_failed_fetch (fun _ => .error "boom") ⟨[]⟩ "app" "boom" rfl (Or.inl rfl)⟩

/-- Counterexample for C8: a successful refresh whose reloaded record is
deep-equal to the current one still replaces the exposed pointer: the
handle ends up holding the new allocation (id 1, value 5), not the old
allocation (id 0, value 5), so a swap does occur; the callback correctly
does not fire. -/
theorem refresh_swaps_on_equal_value :
    Refresh (α := Nat) ⟨⟨0, 5⟩, true⟩ (.ok ⟨1, 5⟩) =
      .ok (⟨⟨1, 5⟩, true⟩, [.lockAcquire, .assign ⟨0, 5⟩ ⟨1, 5⟩, .lockRelease]) ∧
    (⟨1, 5⟩ : Alloc Nat) ≠ ⟨0, 5⟩ ∧ (⟨1, 5⟩ : Alloc Nat).val = (⟨0, 5⟩ : Alloc Nat).val :=
  ⟨rfl, by decide, rfl⟩

/-- C8 (amended): on a successful reload the exposed pointer is always
replaced by the newly loaded record, even when it is deep-equal to the
current one; the on-change callback is invoked exactly once, with
(previous record, new record), after the lock is released, precisely when
a callback is configured and the two records are not deep-equal; a reload
error is propagated unchanged. -/
theorem refresh_swap_callback {α : Type} [DecidableEq α]
    (rc : RefreshingConfig α) (newC : Alloc α) :
    (∀ e, Refresh rc (.error e) = .error e) ∧
    (rc.onChangeSet = true → rc.config.val ≠ newC.val →
      Refresh rc (.ok newC) = .ok ({ rc with config := newC },
        [.lockAcquire, .assign rc.config newC, .lockRelease,
          .callback rc.config newC])) ∧
    (rc.onChangeSet = false ∨ rc.config.val = newC.val →
      Refresh rc (.ok newC) = .ok ({ rc with config := newC },
        [.lockAcquire, .assign rc.config newC, .lockRelease])) := by
  refine ⟨fun e => rfl, ?_, ?_⟩
  · intro hset hne
    simp [Refresh, hset, hne]
  · intro h
    rcases h with h | h <;> simp [Refresh, h]

/-- Witness for C8 (amended): with a configured callback, refreshing from
(id 0, value 5) to a different value (id 1, value 7) swaps and fires the
callback once with (old, new); refreshing to an equal value (id 1,
value 5) swaps without firing the callback. -/
theorem refresh_swap_callback_witness :
    Refresh (α := Nat) ⟨⟨0, 5⟩, true⟩ (.ok ⟨1, 7⟩) =
      .ok (⟨⟨1, 7⟩, true⟩, [.lockAcquire, .assign ⟨0, 5⟩ ⟨1, 7⟩, .lockRelease,
        .callback ⟨0, 5⟩ ⟨1, 7⟩]) ∧
    Refresh (α := Nat) ⟨⟨0, 5⟩, true⟩ (.ok ⟨1, 5⟩) =
      .ok (⟨⟨1, 5⟩, true⟩, [.lockAcquire, .assign ⟨0, 5⟩ ⟨1, 5⟩, .lockRelease]) ∧
    Refresh (α := Nat) ⟨⟨0, 5⟩, true⟩ (.error "down") = .error "down" :=
  ⟨(refresh_swap_callback ⟨⟨0, 5⟩, true⟩ ⟨1, 7⟩).2.1 rfl (by decide),
    (refresh_swap_callback ⟨⟨0, 5⟩, true⟩ ⟨1, 5⟩).2.2 (Or.inr rfl),
    (refresh_swap_callback (α := Nat) ⟨⟨0, 5⟩, true⟩ ⟨1, 5⟩).1 "down"⟩

/-- C1: for a nested-record field not tagged for JSON decoding, the
sub-prefix is the field's `ssm` (remote-key) tag when non-empty, else the
lowercased field name; when the field is required and the map filtered to
that sub-prefix is empty, a missing-required entry is recorded (with a
warning when a logger is set) and the recursion does not run — the result
is the same for every possible recursive call; otherwise the mapper
recurses into the nested record with the filtered map; on the map
{"database/host": "localhost", "database/port": "5432"} with a nested
field tagged `ssm:"database"`, the nested record comes back with host
"localhost" and port 5432, int-converted. -/
theorem nested_plain_mapping :
    (∀ (recurse : RecurseFn) (ctx : MapperCtx) values n tg nested fv missing log,
      truthyTag tg.json = false →
      (isRequiredField tg.required = true ∧
        (filterValuesByPrefix values
          (if tg.ssm ≠ "" then tg.ssm else lowerStr n)).isEmpty = true) →
      mapOneField recurse ctx values (n, tg, .strct nested) fv missing log =
        .cont fv (missing ++ [missingNestedInfo n tg.ssm tg.env])
          (addLog ctx.hasLogger log
            ("WARNING: Required nested struct missing: " ++
              missingNestedInfo n tg.ssm tg.env))) ∧
    (∀ (recurse : RecurseFn) (ctx : MapperCtx) values n tg nested fv missing log,
      truthyTag tg.json = false →
      ¬(isRequiredField tg.required = true ∧
        (filterValuesByPrefix values
          (if tg.ssm ≠ "" then tg.ssm else lowerStr n)).isEmpty = true) →
      mapOneField recurse ctx values (n, tg, .strct nested) fv missing log =
        (match recurse
            (filterValuesByPrefix values (if tg.ssm ≠ "" then tg.ssm else lowerStr n))
            nested (structInner nested fv) log with
          | .ok newInner log2 => runFieldValidators ctx (.vstruct newInner) tg n missing log2
          | .err m log2 => .failed ("mapping nested struct field " ++ n ++ ": " ++ m) log2
          | .panicked m log2 => .panicked m log2)) ∧
    mapToStruct exCtx 2 [("database/host", "localhost"), ("database/port", "5432")]
      [("Database", { exTags with ssm := "database" }, .strct dbFields)]
      [.vstruct [.vstr "", .vint .w64 0]] [] =
      .ok [.vstruct [.vstr "localhost", .vint .w64 5432]] [] := by
  refine ⟨?_, ?_, rfl⟩
  · intro recurse ctx values n tg nested fv missing log hjson hreq
    simp only [mapOneField, hjson, Bool.false_eq_true, if_false]
    rw [if_pos hreq]
  · intro recurse ctx values n tg nested fv missing log hjson hreq
    simp only [mapOneField, hjson, Bool.false_eq_true, if_false]
    rw [if_neg hreq]

/-- Witness for C1: a required nested field whose sub-prefix filters to
an empty map records the missing-required entry without recursing, and an
optional nested field recurses. -/
theorem nested_plain_mapping_witness :
    truthyTag exTags.json = false ∧
    (isRequiredField ({ exTags with ssm := "database", required := "true" } : FieldTags).required
        = true ∧
      (filterValuesByPrefix [("server/host", "x")]
        (if ({ exTags with ssm := "database", required := "true" } : FieldTags).ssm ≠ "" then
          ({ exTags with ssm := "database", required := "true" } : FieldTags).ssm
        else lowerStr "Database")).isEmpty = true) ∧
    mapOneField (mapToStruct exCtx 1) exCtx [("server/host", "x")]
      ("Database", { exTags with ssm := "database", required := "true" }, .strct dbFields)
      (.vstruct [.vstr "", .vint .w64 0]) [] [] =
      .cont (.vstruct [.vstr "", .vint .w64 0])
        ([] ++ [missingNestedInfo "Database"
          ({ exTags with ssm := "database", required := "true" } : FieldTags).ssm
          ({ exTags with ssm := "database", required := "true" } : FieldTags).env])
        (addLog exCtx.hasLogger []
          ("WARNING: Required nested struct missing: " ++
            missingNestedInfo "Database"
              ({ exTags with ssm := "database", required := "true" } : FieldTags).ssm
              ({ exTags with ssm := "database", required := "true" } : FieldTags).env)) :=
  ⟨rfl, ⟨rfl, rfl⟩,
    nested_plain_mapping.1 (mapToStruct exCtx 1) exCtx [("server/host", "x")] "Database"
      { exTags with ssm := "database", required := "true" } dbFields
      (.vstruct [.vstr "", .vint .w64 0]) [] [] rfl ⟨rfl, rfl⟩⟩

/-- C3: for a leaf field carrying both an env tag and a remote key, the
environment variable wins exactly when its value is non-empty: a
non-empty env value is used even when the merged map holds a non-empty
value for the remote key, and an env variable that is present but empty
does not count as resolved, so the merged-map value is used instead; the
mapped struct stores the winning value accordingly. -/
theorem env_precedence :
    (∀ (envf : String → String) (values : StrMap) en sk,
      en ≠ "" → envf en ≠ "" → resolveRaw envf values en sk = some (envf en)) ∧
    (∀ (envf : String → String) (values : StrMap) en sk v,
      envf en = "" → sk ≠ "" → lookupKey values sk = some v → v ≠ "" →
      resolveRaw envf values en sk = some v) ∧
    (∀ (ctx : MapperCtx) (fuel : Nat) (values : StrMap) n (tg : FieldTags) v0,
      tg.env ≠ "" → ctx.envf tg.env ≠ "" →
      truthyTag tg.json = false → tg.validate = "" → ctx.useStrongTyping = true →
      ctx.strict = false →
      mapToStruct ctx (fuel + 1) values [(n, tg, .leaf .str)] [v0] [] =
        .ok [.vstr (ctx.envf tg.env)] []) ∧
    (∀ (ctx : MapperCtx) (fuel : Nat) (values : StrMap) n (tg : FieldTags) v0 w,
      ctx.envf tg.env = "" → tg.ssm ≠ "" →
      lookupKey values tg.ssm = some w → w ≠ "" →
      truthyTag tg.json = false → tg.validate = "" → ctx.useStrongTyping = true →
      ctx.strict = false →
      mapToStruct ctx (fuel + 1) values [(n, tg, .leaf .str)] [v0] [] =
        .ok [.vstr w] []) := by
  have hres1 : ∀ (envf : String → String) (values : StrMap) en sk,
      en ≠ "" → envf en ≠ "" → resolveRaw envf values en sk = some (envf en) := by
    intro envf values en sk hen henv
    unfold resolveRaw
    rw [if_pos ⟨hen, henv⟩]
  have hres2 : ∀ (envf : String → String) (values : StrMap) en sk v,
      envf en = "" → sk ≠ "" → lookupKey values sk = some v → v ≠ "" →
      resolveRaw envf values en sk = some v := by
    intro envf values en sk v henv hsk hv hvne
    unfold resolveRaw
    rw [if_neg (fun h => h.2 henv), if_pos hsk, hv]
    show (if v ≠ "" then some v else none) = some v
    rw [if_pos hvne]
  have hmap : ∀ (ctx : MapperCtx) (fuel : Nat) (values : StrMap) n (tg : FieldTags) v0 w,
      resolveRaw ctx.envf values tg.env tg.ssm = some w →
      ¬(tg.ssm = "" ∧ tg.env = "") →
      truthyTag tg.json = false → tg.validate = "" → ctx.useStrongTyping = true →
      ctx.strict = false →
      mapToStruct ctx (fuel + 1) values [(n, tg, .leaf .str)] [v0] [] =
        .ok [.vstr w] [] := by
    intro ctx fuel values n tg v0 w hres hne hjson hval hst hstrict
    have hone : mapOneField (mapToStruct ctx fuel) ctx values (n, tg, .leaf .str) v0 [] []
        = .cont (.vstr w) [] [] := by
      simp only [mapOneField]
      rw [if_neg hne, hres]
      simp only [hjson, hst, Bool.not_true, Bool.or_false, Bool.false_eq_true, if_false,
        setFieldValue]
      unfold runFieldValidators
      rw [if_neg (fun h => h hval)]
    have hfields : mapFields (mapToStruct ctx fuel) ctx values [(n, tg, .leaf .str)]
        [v0] [] [] = .cont [.vstr w] [] [] := by
      simp only [mapFields, hone]
    simp only [mapToStruct, hfields]
    rw [if_neg (fun h => h.1 rfl)]
  refine ⟨hres1, hres2, ?_, ?_⟩
  · intro ctx fuel values n tg v0 hen henv hjson hval hst hstrict
    exact hmap ctx fuel values n tg v0 (ctx.envf tg.env)
      (hres1 ctx.envf values tg.env tg.ssm hen henv) (fun h => hen h.2) hjson hval hst hstrict
  · intro ctx fuel values n tg v0 w henv hsk hv hvne hjson hval hst hstrict
    exact hmap ctx fuel values n tg v0 w
      (hres2 ctx.envf values tg.env tg.ssm w henv hsk hv hvne) (fun h => hsk h.1)
      hjson hval hst hstrict

/-- Witness for C3: with API_KEY set to "fromenv" and the merged map
holding a non-empty value for the same field, the env value is stored;
with the env variable empty, the map value "frommap" is stored. -/
theorem env_precedence_witness :
    (exReqTags.env ≠ "" ∧ exCtxEnv.envf exReqTags.env ≠ "" ∧
      mapToStruct exCtxEnv 1 [("api_key", "frommap")]
        [("APIKey", exReqTags, .leaf .str)] [.vstr ""] [] =
        .ok [.vstr (exCtxEnv.envf exReqTags.env)] []) ∧
    (exCtx.envf exReqTags.env = "" ∧ exReqTags.ssm ≠ "" ∧
      lookupKey [("api_key", "frommap")] exReqTags.ssm = some "frommap" ∧
      mapToStruct exCtx 1 [("api_key", "frommap")]
        [("APIKey", exReqTags, .leaf .str)] [.vstr ""] [] = .ok [.vstr "frommap"] []) :=
  ⟨⟨by decide, by decide,
    env_precedence.2.2.1 exCtxEnv 0 [("api_key", "frommap")] "APIKey" exReqTags (.vstr "")
      (by decide) (by decide) rfl rfl rfl rfl⟩,
   ⟨rfl, by decide, rfl,
    env_precedence.2.2.2 exCtx 0 [("api_key", "frommap")] "APIKey" exReqTags (.vstr "")
      "frommap" rfl (by decide) rfl (by decide) rfl rfl rfl rfl⟩⟩

/-- C4: in a mapping pass where required leaf fields resolve no value,
the pass in non-strict mode returns success (nil error) and, when a
logger is configured, the logger is invoked exactly once per missing
required field, in field order, each message containing "WARNING" and the
field's configured remote (`ssm`) and env key names (via
`missingFieldInfo`); with no logger nothing is logged.  In strict mode
the pass aborts by panicking with a message listing all missing fields,
regardless of logger presence. -/
theorem missing_required_reporting :
    ∀ (ctx : MapperCtx) (fuel : Nat) (values : StrMap) (n1 n2 : String)
      (tg1 tg2 : FieldTags) (k1 k2 : FieldKind) (v1 v2 : GoValue),
      ¬(tg1.ssm = "" ∧ tg1.env = "") → ¬(tg2.ssm = "" ∧ tg2.env = "") →
      resolveRaw ctx.envf values tg1.env tg1.ssm = none →
      resolveRaw ctx.envf values tg2.env tg2.ssm = none →
      isRequiredField tg1.required = true → isRequiredField tg2.required = true →
      (ctx.strict = false →
        mapToStruct ctx (fuel + 1) values [(n1, tg1, .leaf k1), (n2, tg2, .leaf k2)]
          [v1, v2] [] =
          .ok [v1, v2]
            (if ctx.hasLogger then
              ["WARNING: Required field missing: " ++ missingFieldInfo n1 tg1.ssm tg1.env,
                "WARNING: Required field missing: " ++ missingFieldInfo n2 tg2.ssm tg2.env]
            else [])) ∧
      (ctx.strict = true →
        mapToStruct ctx (fuel + 1) values [(n1, tg1, .leaf k1), (n2, tg2, .leaf k2)]
          [v1, v2] [] =
          .panicked
            ("ssmconfig: Missing required fields: " ++
              (missingFieldInfo n1 tg1.ssm tg1.env ++ ", " ++
                missingFieldInfo n2 tg2.ssm tg2.env))
            (if ctx.hasLogger then
              ["WARNING: Required field missing: " ++ missingFieldInfo n1 tg1.ssm tg1.env,
                "WARNING: Required field missing: " ++ missingFieldInfo n2 tg2.ssm tg2.env]
            else [])) := by
  intro ctx fuel values n1 n2 tg1 tg2 k1 k2 v1 v2 hne1 hne2 hr1 hr2 hq1 hq2
  have hone1 : mapOneField (mapToStruct ctx fuel) ctx values (n1, tg1, .leaf k1) v1 [] []
      = .cont v1 [missingFieldInfo n1 tg1.ssm tg1.env]
        (addLog ctx.hasLogger []
          ("WARNING: Required field missing: " ++ missingFieldInfo n1 tg1.ssm tg1.env)) := by
    simp only [mapOneField]
    rw [if_neg hne1, hr1]
    simp only [hq1, if_true, List.nil_append]
  have hone2 : mapOneField (mapToStruct ctx fuel) ctx values (n2, tg2, .leaf k2) v2
      [missingFieldInfo n1 tg1.ssm tg1.env]
      (addLog ctx.hasLogger []
        ("WARNING: Required field missing: " ++ missingFieldInfo n1 tg1.ssm tg1.env))
      = .cont v2 [missingFieldInfo n1 tg1.ssm tg1.env, missingFieldInfo n2 tg2.ssm tg2.env]
        (addLog ctx.hasLogger
          (addLog ctx.hasLogger []
            ("WARNING: Required field missing: " ++ missingFieldInfo n1 tg1.ssm tg1.env))
          ("WARNING: Required field missing: " ++ missingFieldInfo n2 tg2.ssm tg2.env)) := by
    simp only [mapOneField]
    rw [if_neg hne2, hr2]
    simp only [hq2, if_true, List.singleton_append]
  have hfs : mapFields (mapToStruct ctx fuel) ctx values
      [(n1, tg1, .leaf k1), (n2, tg2, .leaf k2)] [v1, v2] [] []
      = .cont [v1, v2]
        [missingFieldInfo n1 tg1.ssm tg1.env, missingFieldInfo n2 tg2.ssm tg2.env]
        (addLog ctx.hasLogger
          (addLog ctx.hasLogger []
            ("WARNING: Required field missing: " ++ missingFieldInfo n1 tg1.ssm tg1.env))
          ("WARNING: Required field missing: " ++ missingFieldInfo n2 tg2.ssm tg2.env)) := by
    simp only [mapFields, hone1, hone2]
  have hlog : addLog ctx.hasLogger
      (addLog ctx.hasLogger []
        ("WARNING: Required field missing: " ++ missingFieldInfo n1 tg1.ssm tg1.env))
      ("WARNING: Required field missing: " ++ missingFieldInfo n2 tg2.ssm tg2.env)
      = (if ctx.hasLogger then
          ["WARNING: Required field missing: " ++ missingFieldInfo n1 tg1.ssm tg1.env,
            "WARNING: Required field missing: " ++ missingFieldInfo n2 tg2.ssm tg2.env]
        else []) := by
    by_cases hl : ctx.hasLogger = true <;> simp [addLog, hl]
  constructor
  · intro hstrict
    simp only [mapToStruct, hfs]
    rw [if_neg (fun h => by rw [hstrict] at h; exact absurd h.2 (by simp)), hlog]
  · intro hstrict
    simp only [mapToStruct, hfs]
    rw [if_pos ⟨by simp, hstrict⟩, hlog,
      show joinSep ", "
          [missingFieldInfo n1 tg1.ssm tg1.env, missingFieldInfo n2 tg2.ssm tg2.env]
        = missingFieldInfo n1 tg1.ssm tg1.env ++ ", " ++
          missingFieldInfo n2 tg2.ssm tg2.env from rfl]

/-- Witness for C4: two required fields with no resolvable value; with a
logger and non-strict mode the pass succeeds and logs one warning per
field; in strict mode it panics listing both fields. -/
theorem missing_required_reporting_witness :
    resolveRaw exCtxLog.envf [] exReqTags.env exReqTags.ssm = none ∧
    isRequiredField exReqTags.required = true ∧
    mapToStruct exCtxLog 1 [] [("APIKey", exReqTags, .leaf .str),
      ("Token", { exTags with ssm := "token", required := "1" }, .leaf .str)]
      [.vstr "", .vstr ""] [] =
      .ok [.vstr "", .vstr ""]
        (if exCtxLog.hasLogger then
          ["WARNING: Required field missing: " ++
            missingFieldInfo "APIKey" exReqTags.ssm exReqTags.env,
            "WARNING: Required field missing: " ++ missingFieldInfo "Token"
              ({ exTags with ssm := "token", required := "1" } : FieldTags).ssm
              ({ exTags with ssm := "token", required := "1" } : FieldTags).env]
        else []) ∧
    mapToStruct exCtxStrict 1 [] [("APIKey", exReqTags, .leaf .str),
      ("Token", { exTags with ssm := "token", required := "1" }, .leaf .str)]
      [.vstr "", .vstr ""] [] =
      .panicked
        ("ssmconfig: Missing required fields: " ++
          (missingFieldInfo "APIKey" exReqTags.ssm exReqTags.env ++ ", " ++
            missingFieldInfo "Token"
              ({ exTags with ssm := "token", required := "1" } : FieldTags).ssm
              ({ exTags with ssm := "token", required := "1" } : FieldTags).env))
        (if exCtxStrict.hasLogger then
          ["WARNING: Required field missing: " ++
            missingFieldInfo "APIKey" exReqTags.ssm exReqTags.env,
            "WARNING: Required field missing: " ++ missingFieldInfo "Token"
              ({ exTags with ssm := "token", required := "1" } : FieldTags).ssm
              ({ exTags with ssm := "token", required := "1" } : FieldTags).env]
        else []) :=
  ⟨rfl, rfl,
    (missing_required_reporting exCtxLog 0 [] "APIKey" "Token" exReqTags
      { exTags with ssm := "token", required := "1" } .str .str (.vstr "") (.vstr "")
      (by decide) (by decide) rfl rfl rfl rfl).1 rfl,
    (missing_required_reporting exCtxStrict 0 [] "APIKey" "Token" exReqTags
      { exTags with ssm := "token", required := "1" } .str .str (.vstr "") (.vstr "")
      (by decide) (by decide) rfl rfl rfl rfl).2 rfl⟩

end Ssmconfig
